import Mathlib

/-!
# Verification of the `concurrent_qs` SPSC channel library

A shallow embedding, in Lean 4, of the SPSC channel library:

* the bounded ring-buffer channel (`src/spsc/bounded/inner.rs`, `mod.rs`),
* the unbounded free-list linked channel (`src/spsc/unbounded/inner.rs`, `mod.rs`),
* the parker primitive (`src/util/park/real.rs`),
* the disconnect / deallocation handshakes of the endpoint destructors.

Machine integers (`usize`) are modelled as `Nat` reduced modulo `USIZE = 2 ^ 64`
exactly where the source performs wrapping arithmetic (`wrapping_add`, the
`& (capacity - 1)` bitmask, `fetch_add`).  `MaybeUninit<T>` slots are modelled
as `Option`; reading an uninitialised slot (which would be undefined behaviour
in the source) makes the modelled operation return `none`.  The driver code is
sequential: atomic loads read the current value of the modelled field, which is
the single-threaded semantics of the source's acquire/release atomics.
-/

deriving instance DecidableEq for Except

namespace CQ

/-- The modulus of `usize` arithmetic on the 64-bit targets the crate is built
for: every cursor store and every `wrapping_add` in the source is reduced
modulo this constant. -/
def USIZE : Nat := 2 ^ 64

theorem USIZE_eq : USIZE = 18446744073709551616 := by norm_num [USIZE]

/-- `error.rs` / `bounded/error.rs`: failure modes of `try_send`; both carry
the item that failed to send. -/
inductive TrySendError (α : Type) where
  | Full (item : α)
  | Disconnected (item : α)
deriving DecidableEq

/-- `error.rs`: failure modes of `try_recv`. -/
inductive TryRecvError where
  | Empty
  | Disconnected
deriving DecidableEq

/-- `error.rs`: `SendError<T>(pub T)`, returned by blocking `send` when the
receiver has disconnected; carries the unsent item. -/
structure SendError (α : Type) where
  item : α
deriving DecidableEq

/-- `error.rs`: `RecvError {}`, returned by blocking `recv` when the sender has
disconnected and all data has been drained. -/
structure RecvError where
deriving DecidableEq

/-- Ghost record of the `unpark` calls an operation performs
(`wake_receiver` unparks `sender.recv_park`, `wake_sender` unparks
`receiver.send_park`). -/
inductive Wake where
  | wakeReceiver
  | wakeSender
deriving DecidableEq

/-! ## Bounded ring-buffer channel (`src/spsc/bounded/inner.rs`) -/

/-- The shared state of a bounded channel, flattening
`SenderData { tail, head_cache, recv_park }`,
`ReceiverData { head, tail_cache, send_park }` and
`SharedData { buffer, drop_count }`.  Parkers carry no modelled state
(their state machine is modelled separately, see `Parker` below).
A buffer slot holds `none` while its `MaybeUninit` cell is uninitialised. -/
structure BInner (α : Type) where
  tail : Nat
  head_cache : Nat
  head : Nat
  tail_cache : Nat
  buffer : List (Option α)
  drop_count : Nat
deriving DecidableEq

/-- `Inner::new(capacity)`: zeroed cursors, an uninitialised buffer of
`capacity` slots, `drop_count = 0`. -/
def BInner.new (α : Type) (capacity : Nat) : BInner α :=
  { tail := 0
    head_cache := 0
    head := 0
    tail_cache := 0
    buffer := List.replicate capacity none
    drop_count := 0 }

/-- The tail portion of `Inner::try_send` after the full-check has passed:
write the item into slot `tail & (cap - 1)`, publish `tail.wrapping_add(1)`,
and wake the receiver. -/
def BInner.commitSend (s : BInner α) (item : α) (tail cap : Nat) :
    BInner α × Except (TrySendError α) Unit × List Wake :=
  ({ s with
      buffer := s.buffer.set (tail &&& (cap - 1)) (some item)
      tail := (tail + 1) % USIZE },
   Except.ok (), [Wake.wakeReceiver])

/-- `Inner::try_send` (`bounded/inner.rs:97`): check `drop_count`; read the own
write cursor `tail`; if the cached read cursor says the buffer is full, refresh
the cache from the receiver's `head` and re-check; on genuine fullness wake the
receiver and return `Full(item)`; otherwise write the slot and publish. -/
def BInner.try_send (s : BInner α) (item : α) :
    BInner α × Except (TrySendError α) Unit × List Wake :=
  if s.drop_count ≠ 0 then
    (s, Except.error (TrySendError.Disconnected item), [])
  else
    let tail := s.tail
    let cap := s.buffer.length
    if tail = (s.head_cache + cap) % USIZE then
      let s1 := { s with head_cache := s.head }
      if tail = (s1.head_cache + cap) % USIZE then
        (s1, Except.error (TrySendError.Full item), [Wake.wakeReceiver])
      else
        BInner.commitSend s1 item tail cap
    else
      BInner.commitSend s item tail cap

/-- The tail portion of `Inner::try_recv`: read the slot at
`head & (len - 1)` out of the buffer, advance the read cursor, wake the
sender.  Reading an uninitialised or out-of-range slot is undefined behaviour
in the source and yields `none` here. -/
def BInner.readSlot (s : BInner α) (head : Nat) :
    Option (BInner α × Except TryRecvError α × List Wake) :=
  match s.buffer[head &&& (s.buffer.length - 1)]? with
  | some (some v) =>
      some ({ s with head := (head + 1) % USIZE }, Except.ok v, [Wake.wakeSender])
  | some none => none
  | none => none

/-- `Inner::try_recv` (`bounded/inner.rs:146`): read the own read cursor
`head`; if the cached write cursor says the buffer is empty, refresh from the
sender's `tail` and re-check; if still empty and `drop_count` is nonzero,
reload `tail` once more before declaring `Disconnected`; genuinely empty
returns `Empty` after waking the sender; otherwise read the slot out and
advance `head`. -/
def BInner.try_recv (s : BInner α) :
    Option (BInner α × Except TryRecvError α × List Wake) :=
  let head := s.head
  if head = s.tail_cache then
    let s1 := { s with tail_cache := s.tail }
    if head = s1.tail_cache then
      if s1.drop_count ≠ 0 then
        let s2 := { s1 with tail_cache := s1.tail }
        if head = s2.tail_cache then
          some (s2, Except.error TryRecvError.Disconnected, [])
        else
          some (s2, Except.error TryRecvError.Empty, [Wake.wakeSender])
      else
        some (s1, Except.error TryRecvError.Empty, [Wake.wakeSender])
    else
      BInner.readSlot s1 head
  else
    BInner.readSlot s head

/-- `Inner::send` (`bounded/inner.rs:57`): loop `try_send`, parking between
attempts, until success or disconnect.  `fuel` bounds the number of attempts
(each park in the source corresponds to consuming one unit); `none` means the
call is still blocked after `fuel` attempts. -/
def BInner.send : Nat → BInner α → α → Option (BInner α × Except (SendError α) Unit)
  | 0, _, _ => none
  | fuel + 1, s, item =>
    match s.try_send item with
    | (s', Except.ok _, _) => some (s', Except.ok ())
    | (s', Except.error (TrySendError.Disconnected ret), _) =>
        some (s', Except.error ⟨ret⟩)
    | (s', Except.error (TrySendError.Full ret), _) => BInner.send fuel s' ret

/-- `Inner::recv` (`bounded/inner.rs:77`): loop `try_recv`, parking between
attempts, until a value or disconnect.  `none` means still blocked after
`fuel` attempts (or undefined behaviour inside `try_recv`). -/
def BInner.recv : Nat → BInner α → Option (BInner α × Except RecvError α)
  | 0, _ => none
  | fuel + 1, s =>
    match s.try_recv with
    | none => none
    | some (s', Except.ok v, _) => some (s', Except.ok v)
    | some (s', Except.error TryRecvError.Disconnected, _) =>
        some (s', Except.error ⟨⟩)
    | some (s', Except.error TryRecvError.Empty, _) => BInner.recv fuel s'

/-- `Inner::peer_connected` (`bounded/inner.rs:191`): `drop_count == 0`. -/
def BInner.peer_connected (s : BInner α) : Bool :=
  s.drop_count == 0

/-- `Drop for Sender` / `Drop for Receiver` (`bounded/mod.rs:118-150`):
`drop_count.fetch_add(1, AcqRel)`; if the prior value was `0` the `if` branch
is empty (the source contains no statement there), otherwise the shared
`Inner` is deallocated with `Box::from_raw`.  Returns the new state, the prior
counter value, whether this destructor deallocated, and the `unpark` calls it
performed (none occur in the source). -/
def BInner.dropEndpoint (s : BInner α) : BInner α × Nat × Bool × List Wake :=
  ({ s with drop_count := s.drop_count + 1 }, s.drop_count,
    decide (s.drop_count ≠ 0), [])

/-- `usize::checked_next_power_of_two`: the least power of two that is `≥ n`
(`0` and `1` both round to `1`), or `none` if no power of two `≥ n` fits in
`usize` (the largest usize power of two being `2 ^ 63`). -/
def checked_next_power_of_two (n : Nat) : Option Nat :=
  ((List.range 64).find? (fun k => n ≤ 2 ^ k)).map (fun k => 2 ^ k)

/-- `bounded::channel(min_capacity)` (`bounded/mod.rs:17`): round the capacity
up with `checked_next_power_of_two` (panicking — `none` here — on overflow) and
allocate the shared `Inner`.  Both returned endpoints reference this state. -/
def boundedChannel (α : Type) (min_capacity : Nat) : Option (BInner α) :=
  (checked_next_power_of_two min_capacity).map (fun cap => BInner.new α cap)

/-- Drive a list of values through consecutive `try_send` calls; `none` if any
call fails. -/
def BInner.sendAll : BInner α → List α → Option (BInner α)
  | s, [] => some s
  | s, v :: vs =>
    match s.try_send v with
    | (s', Except.ok _, _) => BInner.sendAll s' vs
    | (_, Except.error _, _) => none

/-- Perform `n` consecutive `try_recv` calls, collecting the received values;
`none` if any call does not return a value. -/
def BInner.recvN : BInner α → Nat → Option (BInner α × List α)
  | s, 0 => some (s, [])
  | s, n + 1 =>
    match s.try_recv with
    | some (s', Except.ok v, _) =>
        match BInner.recvN s' n with
        | some (s'', vs) => some (s'', v :: vs)
        | none => none
    | _ => none

/-! ## Arithmetic helpers for wrapping cursors -/

theorem usize_mod_eq_iff {a b : Nat} (hab : a ≤ b) (h : b - a < USIZE) :
    a % USIZE = b % USIZE ↔ a = b := by
  rw [USIZE_eq] at h ⊢
  omega

theorem mod_usize_mod_pow {x k : Nat} (hk : k ≤ 64) :
    x % USIZE % 2 ^ k = x % 2 ^ k :=
  Nat.mod_mod_of_dvd x (pow_dvd_pow 2 hk)

theorem land_mask_eq_mod {x k : Nat} (hk : k ≤ 64) :
    x % USIZE &&& (2 ^ k - 1) = x % 2 ^ k := by
  rw [Nat.and_pow_two_sub_one_eq_mod, mod_usize_mod_pow hk]

theorem mod_ne_of_sub_lt {a b cap : Nat} (h1 : a < b) (h2 : b - a < cap) :
    a % cap ≠ b % cap := by
  intro h
  have hdvd : cap ∣ b - a := (Nat.modEq_iff_dvd' (Nat.le_of_lt h1)).mp h
  have := Nat.le_of_dvd (by omega) hdvd
  omega

/-! ## Bounded channel: representation invariant and simulation lemmas -/

/-- Representation invariant for the bounded channel: the machine cursors are
the images modulo `USIZE` of monotone ghost cursors `HC ≤ H ≤ TC ≤ T`
(`head_cache`, `head`, `tail_cache`, `tail`) with `T ≤ HC + cap`; the
pending queue `vs` (oldest first) occupies slots `H % cap, …, (T-1) % cap`. -/
def BInv (s : BInner α) (cap : Nat) (vs : List α) : Prop :=
  ∃ k H T HC TC : Nat,
    cap = 2 ^ k ∧ k ≤ 63 ∧ s.buffer.length = cap ∧
    s.head = H % USIZE ∧ s.tail = T % USIZE ∧
    s.head_cache = HC % USIZE ∧ s.tail_cache = TC % USIZE ∧
    HC ≤ H ∧ H ≤ TC ∧ TC ≤ T ∧ T ≤ HC + cap ∧
    vs.length = T - H ∧
    ∀ i : Nat, i < vs.length → s.buffer[(H + i) % cap]? = some vs[i]?

theorem BInv_new (α : Type) {k : Nat} (hk : k ≤ 63) :
    BInv (BInner.new α (2 ^ k)) (2 ^ k) [] := by
  refine ⟨k, 0, 0, 0, 0, rfl, hk, ?_, rfl, rfl, rfl, rfl, ?_, ?_, ?_, ?_, ?_, ?_⟩ <;>
    simp [BInner.new]

theorem pow_lt_USIZE {k : Nat} (hk : k ≤ 63) : 2 ^ k < USIZE := by
  have h1 : (2 : Nat) ^ k ≤ 2 ^ 63 := Nat.pow_le_pow_right (by norm_num) hk
  have h2 : (2 : Nat) ^ 63 < USIZE := by rw [USIZE_eq]; norm_num
  omega

theorem full_test_iff {T HC cap : Nat} (hge : HC ≤ T) (hle : T ≤ HC + cap)
    (hcapU : cap < USIZE) :
    T % USIZE = (HC % USIZE + cap) % USIZE ↔ T = HC + cap := by
  rw [Nat.mod_add_mod, usize_mod_eq_iff hle (by omega)]

theorem commitSend_sim {α : Type} {s : BInner α} {k H T HC TC : Nat} {vs : List α}
    (hk : k ≤ 63) (hbuf : s.buffer.length = 2 ^ k)
    (hH : s.head = H % USIZE) (hT : s.tail = T % USIZE)
    (hHC : s.head_cache = HC % USIZE) (hTC : s.tail_cache = TC % USIZE)
    (o1 : HC ≤ H) (o2 : H ≤ TC) (o3 : TC ≤ T) (o4 : T < HC + 2 ^ k)
    (hlen : vs.length = T - H)
    (hcont : ∀ i : Nat, i < vs.length → s.buffer[(H + i) % 2 ^ k]? = some vs[i]?)
    (v : α) :
    ∃ s', BInner.commitSend s v s.tail s.buffer.length =
        (s', Except.ok (), [Wake.wakeReceiver]) ∧
      BInv s' (2 ^ k) (vs ++ [v]) ∧ s'.drop_count = s.drop_count ∧ s'.head = s.head := by
  have hcap0 : 0 < 2 ^ k := Nat.pos_pow_of_pos k (by norm_num)
  have hcapU : 2 ^ k < USIZE := pow_lt_USIZE hk
  refine ⟨_, rfl, ?_, rfl, rfl⟩
  have hidx : s.tail &&& (s.buffer.length - 1) = T % 2 ^ k := by
    rw [hbuf, hT, land_mask_eq_mod (by omega)]
  refine ⟨k, H, T + 1, HC, TC, rfl, hk, ?_, hH, ?_, hHC, hTC, o1, o2,
    by omega, by omega, ?_, ?_⟩
  · simpa using hbuf
  · show (s.tail + 1) % USIZE = (T + 1) % USIZE
    rw [hT, Nat.mod_add_mod]
  · simpa using by omega
  · intro i hi
    simp only [List.length_append, List.length_cons, List.length_nil] at hi
    rcases Nat.lt_or_ge i vs.length with hlt | hge
    · -- untouched slot: still holds the old queue entry
      have hne : (H + i) % 2 ^ k ≠ T % 2 ^ k := by
        apply mod_ne_of_sub_lt <;> omega
      show (s.buffer.set (s.tail &&& (s.buffer.length - 1)) (some v))[(H + i) % 2 ^ k]? =
        some (vs ++ [v])[i]?
      rw [hidx, List.getElem?_set_ne (Ne.symm hne), hcont i hlt,
        List.getElem?_append_left hlt]
    · -- the freshly written slot
      have hieq : i = vs.length := by omega
      subst hieq
      have hTeq : (H + vs.length) % 2 ^ k = T % 2 ^ k := by
        congr 1
        omega
      show (s.buffer.set (s.tail &&& (s.buffer.length - 1)) (some v))[(H + vs.length) % 2 ^ k]? =
        some (vs ++ [v])[vs.length]?
      rw [hidx, hTeq, List.getElem?_set_self (by simp [hbuf]; exact Nat.mod_lt _ hcap0),
        List.getElem?_concat_length]

theorem trySend_ok_sim {α : Type} {s : BInner α} {cap : Nat} {vs : List α}
    (h : BInv s cap vs) (hd : s.drop_count = 0) (hlt : vs.length < cap) (v : α) :
    ∃ s', s.try_send v = (s', Except.ok (), [Wake.wakeReceiver]) ∧
      BInv s' cap (vs ++ [v]) ∧ s'.drop_count = s.drop_count ∧ s'.head = s.head := by
  obtain ⟨k, H, T, HC, TC, hcap, hk, hbuf, hH, hT, hHC, hTC, o1, o2, o3, o4, hlen, hcont⟩ := h
  subst hcap
  have hcapU : 2 ^ k < USIZE := pow_lt_USIZE hk
  simp only [BInner.try_send]
  rw [if_neg (by simp [hd] : ¬ s.drop_count ≠ 0)]
  by_cases hfull : s.tail = (s.head_cache + s.buffer.length) % USIZE
  · rw [if_pos hfull]
    have hT4 : T < H + 2 ^ k := by omega
    have hsecond : ¬ s.tail =
        (({ s with head_cache := s.head }).head_cache + s.buffer.length) % USIZE := by
      show ¬ s.tail = (s.head + s.buffer.length) % USIZE
      rw [hT, hH, hbuf, full_test_iff (by omega) (by omega) hcapU]
      omega
    rw [if_neg hsecond]
    exact commitSend_sim (s := { s with head_cache := s.head }) hk hbuf hH hT hH hTC
      (Nat.le_refl H) o2 o3 hT4 hlen hcont v
  · rw [if_neg hfull]
    have hT4 : T < HC + 2 ^ k := by
      rcases Nat.lt_or_ge T (HC + 2 ^ k) with h' | h'
      · exact h'
      · exfalso
        apply hfull
        rw [hT, hHC, hbuf, full_test_iff (by omega) o4 hcapU]
        omega
    exact commitSend_sim hk hbuf hH hT hHC hTC o1 o2 o3 hT4 hlen hcont v

theorem trySend_full_sim {α : Type} {s : BInner α} {cap : Nat} {vs : List α}
    (h : BInv s cap vs) (hd : s.drop_count = 0) (heq : vs.length = cap) (v : α) :
    s.try_send v = ({ s with head_cache := s.head },
        Except.error (TrySendError.Full v), [Wake.wakeReceiver]) ∧
      BInv { s with head_cache := s.head } cap vs := by
  obtain ⟨k, H, T, HC, TC, hcap, hk, hbuf, hH, hT, hHC, hTC, o1, o2, o3, o4, hlen, hcont⟩ := h
  subst hcap
  have hcapU : 2 ^ k < USIZE := pow_lt_USIZE hk
  have hTH : T = H + 2 ^ k := by omega
  have hHHC : H = HC := by omega
  constructor
  · simp only [BInner.try_send]
    rw [if_neg (by simp [hd] : ¬ s.drop_count ≠ 0)]
    have hfirst : s.tail = (s.head_cache + s.buffer.length) % USIZE := by
      rw [hT, hHC, hbuf, full_test_iff (by omega) o4 hcapU]
      omega
    rw [if_pos hfirst]
    have hsecond : s.tail =
        (({ s with head_cache := s.head }).head_cache + s.buffer.length) % USIZE := by
      show s.tail = (s.head + s.buffer.length) % USIZE
      rw [hT, hH, hbuf, full_test_iff (by omega) (by omega) hcapU]
      omega
    rw [if_pos hsecond]
  · exact ⟨k, H, T, H, TC, rfl, hk, hbuf, hH, hT, hH, hTC, Nat.le_refl H, o2, o3,
      by omega, hlen, hcont⟩

theorem readSlot_sim {α : Type} {s : BInner α} {k H T HC TC : Nat} {v : α} {vs : List α}
    (hk : k ≤ 63) (hbuf : s.buffer.length = 2 ^ k)
    (hH : s.head = H % USIZE) (hT : s.tail = T % USIZE)
    (hHC : s.head_cache = HC % USIZE) (hTC : s.tail_cache = TC % USIZE)
    (o1 : HC ≤ H) (o2 : H < TC) (o3 : TC ≤ T) (o4 : T ≤ HC + 2 ^ k)
    (hlen : (v :: vs).length = T - H)
    (hcont : ∀ i : Nat, i < (v :: vs).length → s.buffer[(H + i) % 2 ^ k]? = some (v :: vs)[i]?) :
    ∃ s', BInner.readSlot s s.head = some (s', Except.ok v, [Wake.wakeSender]) ∧
      BInv s' (2 ^ k) vs ∧ s'.drop_count = s.drop_count ∧
      s'.tail_cache = s.tail_cache ∧ s'.tail = s.tail := by
  have hslot : s.buffer[s.head &&& (s.buffer.length - 1)]? = some (some v) := by
    have h0 := hcont 0 (by simp)
    rw [Nat.add_zero] at h0
    rw [hbuf, hH, land_mask_eq_mod (by omega), h0]
    simp
  refine ⟨{ s with head := (s.head + 1) % USIZE }, ?_, ?_, rfl, rfl, rfl⟩
  · simp only [BInner.readSlot, hslot]
  · refine ⟨k, H + 1, T, HC, TC, rfl, hk, hbuf, ?_, hT, hHC, hTC, by omega, o2, o3, o4,
      ?_, ?_⟩
    · show (s.head + 1) % USIZE = (H + 1) % USIZE
      rw [hH, Nat.mod_add_mod]
    · simp only [List.length_cons] at hlen
      omega
    · intro i hi
      have := hcont (i + 1) (by simp; omega)
      rw [show H + 1 + i = H + (i + 1) by omega]
      simpa using this

theorem tryRecv_ok_sim {α : Type} {s : BInner α} {cap : Nat} {v : α} {vs : List α}
    (h : BInv s cap (v :: vs)) :
    ∃ s', s.try_recv = some (s', Except.ok v, [Wake.wakeSender]) ∧
      BInv s' cap vs ∧ s'.drop_count = s.drop_count := by
  obtain ⟨k, H, T, HC, TC, hcap, hk, hbuf, hH, hT, hHC, hTC, o1, o2, o3, o4, hlen, hcont⟩ := h
  subst hcap
  have hcapU : 2 ^ k < USIZE := pow_lt_USIZE hk
  have hHT : H < T := by
    simp only [List.length_cons] at hlen
    omega
  simp only [BInner.try_recv]
  by_cases hemp : s.head = s.tail_cache
  · rw [if_pos hemp]
    have hsecond : ¬ s.head = ({ s with tail_cache := s.tail }).tail_cache := by
      show ¬ s.head = s.tail
      rw [hH, hT, usize_mod_eq_iff (by omega) (by omega)]
      omega
    rw [if_neg hsecond]
    obtain ⟨s', h1, h2, h3, _, _⟩ :=
      readSlot_sim (s := { s with tail_cache := s.tail }) hk hbuf hH hT hHC hT
        o1 hHT (Nat.le_refl T) o4 hlen hcont
    exact ⟨s', h1, h2, h3⟩
  · rw [if_neg hemp]
    have hHTC : H < TC := by
      rcases Nat.lt_or_ge H TC with h' | h'
      · exact h'
      · exfalso
        apply hemp
        have hEq : H = TC := by omega
        rw [hH, hTC, hEq]
    obtain ⟨s', h1, h2, h3, _, _⟩ :=
      readSlot_sim hk hbuf hH hT hHC hTC o1 hHTC o3 o4 hlen hcont
    exact ⟨s', h1, h2, h3⟩

theorem tryRecv_empty_sim {α : Type} {s : BInner α} {cap : Nat}
    (h : BInv s cap []) (hd : s.drop_count = 0) :
    s.try_recv = some ({ s with tail_cache := s.tail },
        Except.error TryRecvError.Empty, [Wake.wakeSender]) ∧
      BInv { s with tail_cache := s.tail } cap [] := by
  obtain ⟨k, H, T, HC, TC, hcap, hk, hbuf, hH, hT, hHC, hTC, o1, o2, o3, o4, hlen, hcont⟩ := h
  subst hcap
  have hHT : H = T := by
    simp only [List.length_nil] at hlen
    omega
  have hfirst : s.head = s.tail_cache := by
    have hEq : H = TC := by omega
    rw [hH, hTC, hEq]
  have hsecond : s.head = ({ s with tail_cache := s.tail }).tail_cache := by
    show s.head = s.tail
    rw [hH, hT, hHT]
  constructor
  · simp only [BInner.try_recv]
    rw [if_pos hfirst, if_pos hsecond, if_neg (by simp [hd] : ¬ s.drop_count ≠ 0)]
  · exact ⟨k, H, T, HC, T, rfl, hk, hbuf, hH, hT, hHC, hT, o1, by omega, Nat.le_refl T,
      o4, hlen, hcont⟩

theorem tryRecv_disc_sim {α : Type} {s : BInner α} {cap : Nat}
    (h : BInv s cap []) (hd : s.drop_count ≠ 0) :
    s.try_recv = some ({ s with tail_cache := s.tail },
        Except.error TryRecvError.Disconnected, []) ∧
      BInv { s with tail_cache := s.tail } cap [] := by
  obtain ⟨k, H, T, HC, TC, hcap, hk, hbuf, hH, hT, hHC, hTC, o1, o2, o3, o4, hlen, hcont⟩ := h
  subst hcap
  have hHT : H = T := by
    simp only [List.length_nil] at hlen
    omega
  have hfirst : s.head = s.tail_cache := by
    have hEq : H = TC := by omega
    rw [hH, hTC, hEq]
  have hsecond : s.head = ({ s with tail_cache := s.tail }).tail_cache := by
    show s.head = s.tail
    rw [hH, hT, hHT]
  constructor
  · simp only [BInner.try_recv]
    rw [if_pos hfirst, if_pos hsecond, if_pos (by simpa using hd), if_pos hsecond]
  · exact ⟨k, H, T, HC, T, rfl, hk, hbuf, hH, hT, hHC, hT, o1, by omega, Nat.le_refl T,
      o4, hlen, hcont⟩

theorem BInv_length_le {α : Type} {s : BInner α} {cap : Nat} {vs : List α}
    (h : BInv s cap vs) : vs.length ≤ cap := by
  obtain ⟨k, H, T, HC, TC, hcap, hk, hbuf, hH, hT, hHC, hTC, o1, o2, o3, o4, hlen, hcont⟩ := h
  omega

theorem sendAll_inv {α : Type} {vs : List α} :
    ∀ {s s' : BInner α} {cap : Nat} {acc : List α},
    BInv s cap acc → s.drop_count = 0 → BInner.sendAll s vs = some s' →
    BInv s' cap (acc ++ vs) ∧ s'.drop_count = 0 := by
  induction vs with
  | nil =>
    intro s s' cap acc h hd hs
    simp only [BInner.sendAll, Option.some.injEq] at hs
    subst hs
    simpa using ⟨h, hd⟩
  | cons v vs ih =>
    intro s s' cap acc h hd hs
    rcases Nat.lt_or_ge acc.length cap with hlt | hge
    · obtain ⟨s1, h1, h2, h3, _⟩ := trySend_ok_sim h hd hlt v
      rw [BInner.sendAll, h1] at hs
      have := ih h2 (h3.trans hd) hs
      simpa using this
    · have hEq : acc.length = cap := Nat.le_antisymm (BInv_length_le h) hge
      obtain ⟨h1, _⟩ := trySend_full_sim h hd hEq v
      rw [BInner.sendAll, h1] at hs
      exact absurd hs (by simp)

theorem recvN_sim {α : Type} {vs : List α} :
    ∀ {s : BInner α} {cap : Nat},
    BInv s cap vs →
    ∃ s', BInner.recvN s vs.length = some (s', vs) ∧
      BInv s' cap [] ∧ s'.drop_count = s.drop_count := by
  induction vs with
  | nil =>
    intro s cap h
    exact ⟨s, rfl, h, rfl⟩
  | cons v vs ih =>
    intro s cap h
    obtain ⟨s1, h1, h2, h3⟩ := tryRecv_ok_sim h
    obtain ⟨s', h4, h5, h6⟩ := ih h2
    refine ⟨s', ?_, h5, h6.trans h3⟩
    rw [List.length_cons, BInner.recvN, h1]
    simp only [h4]

/-- From a freshly constructed bounded channel: the capacity is a power of
two with exponent at most 63, and the invariant holds for the empty queue. -/
theorem boundedChannel_inv {α : Type} {mc : Nat} {s : BInner α}
    (h : boundedChannel α mc = some s) :
    ∃ k : Nat, k ≤ 63 ∧ s = BInner.new α (2 ^ k) ∧ BInv s (2 ^ k) [] ∧
      s.buffer.length = 2 ^ k ∧ s.drop_count = 0 := by
  simp only [boundedChannel, Option.map_eq_some'] at h
  obtain ⟨p, hp, hs⟩ := h
  simp only [checked_next_power_of_two, Option.map_eq_some'] at hp
  obtain ⟨k, hk, hpk⟩ := hp
  rw [List.find?_range_eq_some] at hk
  obtain ⟨_, hkmem, _⟩ := hk
  have hk63 : k ≤ 63 := by
    have := List.mem_range.mp hkmem
    omega
  subst hpk
  subst hs
  exact ⟨k, hk63, rfl, BInv_new α hk63, by simp [BInner.new], rfl⟩

/-! ## Unbounded free-list channel (`src/spsc/unbounded/inner.rs`) -/

/-- A heap node (`Node<T>`): a `next` pointer (`none` models null) and a
`MaybeUninit` value slot (`none` models uninitialised). -/
structure UNode (α : Type) where
  next : Option Nat
  value : Option α
deriving DecidableEq

/-- The unbounded channel state: the node heap (`nodes`, indexed by node id;
`Node::create` appends a fresh node at the end), the producer-side
`SenderData { head, next_for_reuse, tail_cache }`, the shared `tail` pointer
and the disconnect counter.  The singly-linked chain runs
`next_for_reuse -> … -> tail -> … -> head`. -/
structure UInner (α : Type) where
  nodes : List (UNode α)
  head : Nat
  next_for_reuse : Nat
  tail_cache : Nat
  tail : Nat
  drop_count : Nat
deriving DecidableEq

/-- The `next` field of node `a`, or `none` if the id is dangling. -/
def nextOf (nodes : List (UNode α)) (a : Nat) : Option (Option Nat) :=
  (nodes[a]?).map UNode.next

/-- The `value` slot of node `a`, or `none` if the id is dangling. -/
def valOf (nodes : List (UNode α)) (a : Nat) : Option (Option α) :=
  (nodes[a]?).map UNode.value

/-- `Inner::new`: a single empty node referenced by all four pointers,
`drop_count = 0`. -/
def UInner.new (α : Type) : UInner α :=
  { nodes := [⟨none, none⟩]
    head := 0
    next_for_reuse := 0
    tail_cache := 0
    tail := 0
    drop_count := 0 }

/-- `Inner::next_node_fast`: if `next_for_reuse ≠ tail_cache`, detach the
oldest retired node (clearing its `next` with `mem::replace`) and step
`next_for_reuse` to its successor.  Outer `none` = undefined behaviour
(dangling id, or the `debug_assert`ed null successor); inner `none` = the
fast path found no reusable node. -/
def UInner.next_node_fast (s : UInner α) : Option (Option (Nat × UInner α)) :=
  if s.next_for_reuse ≠ s.tail_cache then
    match s.nodes[s.next_for_reuse]? with
    | none => none
    | some nd =>
      match nd.next with
      | none => none
      | some nxt =>
          some (some (s.next_for_reuse,
            { s with
                nodes := s.nodes.set s.next_for_reuse { nd with next := none }
                next_for_reuse := nxt }))
  else
    some none

/-- `Inner::next_node`: try the fast reuse path; on failure refresh
`tail_cache` from the shared `tail` and retry; on a second failure allocate a
fresh node (`Node::create`, appended to the heap). -/
def UInner.next_node (s : UInner α) : Option (Nat × UInner α) :=
  match s.next_node_fast with
  | none => none
  | some (some r) => some r
  | some none =>
    let s1 := { s with tail_cache := s.tail }
    match s1.next_node_fast with
    | none => none
    | some (some r) => some r
    | some none =>
        some (s1.nodes.length, { s1 with nodes := s1.nodes ++ [⟨none, none⟩] })

/-- `Inner::send` (`unbounded/inner.rs:45`): if disconnected return the item
back; otherwise obtain a node, write the item into its value slot, swap it in
as the new `head` and link the previous head's `next` to it (release store),
then unpark the receiver. -/
def UInner.send (s : UInner α) (item : α) :
    Option (UInner α × Except (SendError α) Unit × List Wake) :=
  if s.drop_count ≠ 0 then
    some (s, Except.error ⟨item⟩, [])
  else
    match s.next_node with
    | none => none
    | some (node, s1) =>
      match s1.nodes[node]? with
      | none => none
      | some nd =>
        let s2 := { s1 with nodes := s1.nodes.set node { nd with value := some item } }
        let old := s2.head
        let s3 := { s2 with head := node }
        match s3.nodes[old]? with
        | none => none
        | some oldNd =>
            some ({ s3 with nodes := s3.nodes.set old { oldNd with next := some node } },
              Except.ok (), [Wake.wakeReceiver])

/-- The receiving tail of `Inner::try_recv`: read the value out of the node
after the tail (`assume_init`; `none` = undefined behaviour on an
uninitialised slot) and advance `tail` to it. -/
def UInner.readNode (s : UInner α) (p : Nat) :
    Option (UInner α × Except TryRecvError α) :=
  match s.nodes[p]? with
  | none => none
  | some nd =>
    match nd.value with
    | none => none
    | some v => some ({ s with tail := p }, Except.ok v)

/-- `Inner::try_recv` (`unbounded/inner.rs:71`): load the tail node's `next`;
null with `drop_count = 0` is `Empty`; null with a nonzero `drop_count`
triggers one more load of `next` before declaring `Disconnected`; otherwise
read the successor node's value and advance the tail. -/
def UInner.try_recv (s : UInner α) : Option (UInner α × Except TryRecvError α) :=
  match s.nodes[s.tail]? with
  | none => none
  | some tailNd =>
    match tailNd.next with
    | some p => s.readNode p
    | none =>
      if s.drop_count = 0 then
        some (s, Except.error TryRecvError.Empty)
      else
        match tailNd.next with
        | some p => s.readNode p
        | none => some (s, Except.error TryRecvError.Disconnected)

/-- `Inner::recv` (`unbounded/inner.rs:98`): loop `try_recv`, parking on
`Empty`, until a value or disconnect; `fuel` bounds the number of attempts. -/
def UInner.recv : Nat → UInner α → Option (UInner α × Except RecvError α)
  | 0, _ => none
  | fuel + 1, s =>
    match s.try_recv with
    | none => none
    | some (s', Except.ok v) => some (s', Except.ok v)
    | some (s', Except.error TryRecvError.Disconnected) =>
        some (s', Except.error ⟨⟩)
    | some (s', Except.error TryRecvError.Empty) => UInner.recv fuel s'

/-- `Inner::peer_connected` (`unbounded/inner.rs:41`): `drop_count == 0`. -/
def UInner.peer_connected (s : UInner α) : Bool :=
  s.drop_count == 0

/-- `Drop for Sender` (`unbounded/mod.rs:94`): one raw
`drop_count.fetch_add(1, AcqRel)` whose result is discarded, followed by an
unconditional `unpark_receiver()`.  This destructor never deallocates; the
member `InnerHolder`'s drop (`dropHolder`) runs afterwards. -/
def UInner.dropSenderExplicit (s : UInner α) : UInner α × Nat × Bool × List Wake :=
  ({ s with drop_count := s.drop_count + 1 }, s.drop_count, false, [Wake.wakeReceiver])

/-- `Drop for InnerHolder` (`unbounded/inner.rs:302`): `fetch_add(1)`; a prior
value of `0` or `1` does nothing, `2` drops and deallocates the shared
`Inner`, anything larger is `unreachable!()` (modelled as `none`).  No
unpark call occurs. -/
def UInner.dropHolder (s : UInner α) : Option (UInner α × Nat × Bool × List Wake) :=
  if s.drop_count ≥ 3 then none
  else
    some ({ s with drop_count := s.drop_count + 1 }, s.drop_count,
      decide (s.drop_count = 2), [])

/-- Drive a list of values through consecutive unbounded `send` calls. -/
def UInner.sendAll : UInner α → List α → Option (UInner α)
  | s, [] => some s
  | s, v :: vs =>
    match s.send v with
    | some (s', Except.ok _, _) => UInner.sendAll s' vs
    | _ => none

/-- Perform `n` consecutive unbounded `try_recv` calls, collecting values. -/
def UInner.recvN : UInner α → Nat → Option (UInner α × List α)
  | s, 0 => some (s, [])
  | s, n + 1 =>
    match s.try_recv with
    | some (s', Except.ok v) =>
        match UInner.recvN s' n with
        | some (s'', vs) => some (s'', v :: vs)
        | none => none
    | _ => none

/-- The chain decomposition witnessing well-formedness of an unbounded channel
state: `pre` runs from `next_for_reuse` to `tail` (inclusive), `post` holds
the ids of the pending nodes in queue order (`tail`'s successor to `head`);
the ids are distinct and in range, consecutive chain nodes are linked by
`next`, the head node's `next` is null, and the `post` nodes carry exactly
the queued values `vs`. -/
def UChainInv (s : UInner α) (pre post : List Nat) (vs : List α) : Prop :=
  (pre ++ post).Nodup ∧
  (∀ a ∈ pre ++ post, a < s.nodes.length) ∧
  (pre ++ post).head? = some s.next_for_reuse ∧
  pre.getLast? = some s.tail ∧
  (pre ++ post).getLast? = some s.head ∧
  s.tail_cache ∈ pre ∧
  List.Chain' (fun a b => nextOf s.nodes a = some (some b)) (pre ++ post) ∧
  nextOf s.nodes s.head = some none ∧
  post.map (valOf s.nodes) = vs.map (fun v => some (some v))

/-- Well-formedness of an unbounded channel state holding queue `vs`. -/
def UInv (s : UInner α) (vs : List α) : Prop :=
  ∃ pre post : List Nat, UChainInv s pre post vs

theorem UInv_new (α : Type) : UInv (UInner.new α) [] := by
  refine ⟨[0], [], ?_, ?_, ?_, ?_, ?_, ?_, ?_, ?_, ?_⟩ <;>
    simp [UInner.new, nextOf, valOf]

/-! Heap-update lemmas for the unbounded node heap. -/

theorem nextOf_set_ne {nodes : List (UNode α)} {i a : Nat} {nd : UNode α} (h : i ≠ a) :
    nextOf (nodes.set i nd) a = nextOf nodes a := by
  simp [nextOf, List.getElem?_set_ne h]

theorem nextOf_set_self {nodes : List (UNode α)} {i : Nat} {nd : UNode α}
    (h : i < nodes.length) :
    nextOf (nodes.set i nd) i = some nd.next := by
  simp [nextOf, List.getElem?_set_self h]

theorem valOf_set_ne {nodes : List (UNode α)} {i a : Nat} {nd : UNode α} (h : i ≠ a) :
    valOf (nodes.set i nd) a = valOf nodes a := by
  simp [valOf, List.getElem?_set_ne h]

theorem valOf_set_self {nodes : List (UNode α)} {i : Nat} {nd : UNode α}
    (h : i < nodes.length) :
    valOf (nodes.set i nd) i = some nd.value := by
  simp [valOf, List.getElem?_set_self h]

theorem nextOf_append_left {nodes l2 : List (UNode α)} {a : Nat} (h : a < nodes.length) :
    nextOf (nodes ++ l2) a = nextOf nodes a := by
  simp [nextOf, List.getElem?_append_left h]

theorem valOf_append_left {nodes l2 : List (UNode α)} {a : Nat} (h : a < nodes.length) :
    valOf (nodes ++ l2) a = valOf nodes a := by
  simp [valOf, List.getElem?_append_left h]

theorem nextOf_concat_self {nodes : List (UNode α)} {nd : UNode α} :
    nextOf (nodes ++ [nd]) nodes.length = some nd.next := by
  simp [nextOf, List.getElem?_concat_length]

theorem valOf_set_next {nodes : List (UNode α)} {i : Nat} {nd : UNode α} {nxt : Option Nat}
    (h : nodes[i]? = some nd) (a : Nat) :
    valOf (nodes.set i { nd with next := nxt }) a = valOf nodes a := by
  by_cases hai : i = a
  · subst hai
    have hlt : i < nodes.length := by
      by_contra h'
      rw [List.getElem?_eq_none (by omega)] at h
      exact Option.noConfusion h
    rw [valOf_set_self hlt]
    simp [valOf, h]
  · exact valOf_set_ne hai

theorem nextOf_set_value {nodes : List (UNode α)} {i : Nat} {nd : UNode α} {v' : Option α}
    (h : nodes[i]? = some nd) (a : Nat) :
    nextOf (nodes.set i { nd with value := v' }) a = nextOf nodes a := by
  by_cases hai : i = a
  · subst hai
    have hlt : i < nodes.length := by
      by_contra h'
      rw [List.getElem?_eq_none (by omega)] at h
      exact Option.noConfusion h
    rw [nextOf_set_self hlt]
    simp [nextOf, h]
  · exact nextOf_set_ne hai

theorem chain'_nextOf_congr {nodes nodes' : List (UNode α)} {l : List Nat}
    (h : ∀ a ∈ l, nextOf nodes' a = nextOf nodes a)
    (hc : List.Chain' (fun a b => nextOf nodes a = some (some b)) l) :
    List.Chain' (fun a b => nextOf nodes' a = some (some b)) l := by
  induction l with
  | nil => exact hc
  | cons x xs ih =>
    rw [List.chain'_cons'] at hc ⊢
    obtain ⟨h1, h2⟩ := hc
    refine ⟨?_, ih (fun a ha => h a (List.mem_cons_of_mem _ ha)) h2⟩
    intro y hy
    rw [h x (List.mem_cons_self _ _)]
    exact h1 y hy

theorem next_node_fast_pop {α : Type} {s : UInner α} {pre post : List Nat} {vs : List α}
    (h : UChainInv s pre post vs) (hne : s.next_for_reuse ≠ s.tail_cache) :
    ∃ node s1 pre1, s.next_node_fast = some (some (node, s1)) ∧
      UChainInv s1 pre1 post vs ∧
      node ∉ pre1 ++ post ∧ node < s1.nodes.length ∧
      nextOf s1.nodes node = some none ∧
      s1.head = s.head ∧ s1.tail = s.tail ∧ s1.tail_cache = s.tail_cache ∧
      s1.drop_count = s.drop_count := by
  obtain ⟨hnd, hbd, hhd, htl, hlast, htc, hch, hhn, hval⟩ := h
  cases pre with
  | nil => simp at htl
  | cons x pre' =>
  have hx : x = s.next_for_reuse := by simpa using hhd
  have htc' : s.tail_cache ∈ pre' := by
    rcases List.mem_cons.mp htc with h' | h'
    · rw [hx] at h'
      exact absurd h'.symm hne
    · exact h'
  cases pre' with
  | nil => exact absurd htc' (by simp)
  | cons y pre'' =>
  simp only [List.cons_append] at hnd hbd hhd hlast hch
  rw [List.chain'_cons] at hch
  obtain ⟨hxy, hch'⟩ := hch
  obtain ⟨nd, hndx, hnext⟩ := Option.map_eq_some'.mp hxy
  rw [hx] at hndx hxy
  have hnd' := List.nodup_cons.mp hnd
  have hxnot : s.next_for_reuse ∉ y :: (pre'' ++ post) := hx ▸ hnd'.1
  have hxlt : s.nodes.length > s.next_for_reuse := hx ▸ hbd x (by simp)
  have hlast' : (y :: (pre'' ++ post)).getLast? = some s.head := by
    cases hpp : pre'' ++ post with
    | nil => simp [hpp] at hlast ⊢; exact hlast
    | cons z zs => rw [hpp] at hlast; rw [List.getLast?_cons_cons] at hlast; exact hlast
  refine ⟨s.next_for_reuse,
    { s with
        nodes := s.nodes.set s.next_for_reuse { nd with next := none }
        next_for_reuse := y },
    y :: pre'', ?_, ?_, by simpa using hxnot, by simpa using hxlt, ?_, rfl, rfl, rfl, rfl⟩
  · simp only [UInner.next_node_fast, if_pos hne, hndx, hnext]
  · refine ⟨?_, ?_, ?_, ?_, ?_, htc', ?_, ?_, ?_⟩
    · simpa using hnd'.2
    · intro a ha
      rw [List.length_set]
      refine hbd a ?_
      simp only [List.cons_append, List.mem_cons] at ha ⊢
      tauto
    · simp
    · rw [hx] at htl
      simpa using htl
    · simpa using hlast'
    · show List.Chain' (fun a b =>
        nextOf (s.nodes.set s.next_for_reuse { nd with next := none }) a = some (some b))
        ((y :: pre'') ++ post)
      simp only [List.cons_append]
      apply chain'_nextOf_congr ?_ hch'
      intro a ha
      exact nextOf_set_ne (fun hax => hxnot (by rw [hax]; exact ha))
    · show nextOf (s.nodes.set s.next_for_reuse { nd with next := none }) s.head = some none
      have hheadmem : s.head ∈ y :: (pre'' ++ post) :=
        List.mem_of_getLast?_eq_some hlast'
      rw [nextOf_set_ne (fun hax => hxnot (by rw [hax]; exact hheadmem))]
      exact hhn
    · show List.map (valOf (s.nodes.set s.next_for_reuse { nd with next := none })) post
        = List.map (fun v => some (some v)) vs
      rw [← hval]
      apply List.map_congr_left
      intro a ha
      have hmem : a ∈ y :: (pre'' ++ post) := by
        simp only [List.mem_cons, List.mem_append]
        tauto
      exact valOf_set_ne (fun hax => hxnot (by rw [hax]; exact hmem))
  · show nextOf (s.nodes.set s.next_for_reuse { nd with next := none }) s.next_for_reuse
      = some none
    rw [nextOf_set_self hxlt]

theorem next_node_sim {α : Type} {s : UInner α} {pre post : List Nat} {vs : List α}
    (h : UChainInv s pre post vs) :
    ∃ node s1 pre1, s.next_node = some (node, s1) ∧
      UChainInv s1 pre1 post vs ∧
      node ∉ pre1 ++ post ∧ node < s1.nodes.length ∧
      nextOf s1.nodes node = some none ∧
      s1.head = s.head ∧ s1.tail = s.tail ∧ s1.drop_count = s.drop_count := by
  by_cases hne : s.next_for_reuse ≠ s.tail_cache
  · obtain ⟨node, s1, pre1, hfast, hinv, h3, h4, h5, h6, h7, _, h9⟩ :=
      next_node_fast_pop h hne
    exact ⟨node, s1, pre1, by simp only [UInner.next_node, hfast], hinv,
      h3, h4, h5, h6, h7, h9⟩
  · push_neg at hne
    have hfast1 : s.next_node_fast = some none := by
      simp [UInner.next_node_fast, hne]
    have hinv1 : UChainInv { s with tail_cache := s.tail } pre post vs := by
      obtain ⟨hnd, hbd, hhd, htl, hlast, htc, hch, hhn, hval⟩ := h
      exact ⟨hnd, hbd, hhd, htl, hlast, List.mem_of_getLast?_eq_some htl,
        hch, hhn, hval⟩
    by_cases hne2 : ({ s with tail_cache := s.tail } : UInner α).next_for_reuse ≠
        ({ s with tail_cache := s.tail } : UInner α).tail_cache
    · obtain ⟨node, s2, pre1, hfast2, hinv2, h3, h4, h5, h6, h7, _, h9⟩ :=
        next_node_fast_pop hinv1 hne2
      exact ⟨node, s2, pre1, by simp only [UInner.next_node, hfast1, hfast2],
        hinv2, h3, h4, h5, h6, h7, h9⟩
    · push_neg at hne2
      have hne2' : s.next_for_reuse = s.tail := hne2
      have hfast2 : ({ s with tail_cache := s.tail } : UInner α).next_node_fast
          = some none := by
        simp [UInner.next_node_fast, hne2']
      obtain ⟨hnd, hbd, hhd, htl, hlast, htc, hch, hhn, hval⟩ := hinv1
      dsimp only at hbd htc hch hhn hval
      have hheadmem : s.head ∈ pre ++ post := List.mem_of_getLast?_eq_some hlast
      refine ⟨s.nodes.length,
        { s with tail_cache := s.tail, nodes := s.nodes ++ [(⟨none, none⟩ : UNode α)] },
        pre, ?_, ?_, ?_, ?_, ?_, rfl, rfl, rfl⟩
      · simp only [UInner.next_node, hfast1, hfast2]
      · refine ⟨hnd, ?_, hhd, htl, hlast, htc, ?_, ?_, ?_⟩
        · intro a ha
          have := hbd a ha
          rw [List.length_append]
          simp only [List.length_cons, List.length_nil]
          omega
        · apply chain'_nextOf_congr ?_ hch
          intro a ha
          exact nextOf_append_left (hbd a ha)
        · show nextOf (s.nodes ++ [(⟨none, none⟩ : UNode α)]) s.head = some none
          rw [nextOf_append_left (hbd s.head hheadmem)]
          exact hhn
        · show List.map (valOf (s.nodes ++ [(⟨none, none⟩ : UNode α)])) post
            = List.map (fun v => some (some v)) vs
          rw [← hval]
          apply List.map_congr_left
          intro a ha
          exact valOf_append_left (hbd a (List.mem_append_right _ ha))
      · intro hmem
        have := hbd s.nodes.length hmem
        omega
      · show s.nodes.length < (s.nodes ++ [(⟨none, none⟩ : UNode α)]).length
        simp
      · show nextOf (s.nodes ++ [(⟨none, none⟩ : UNode α)]) s.nodes.length = some none
        exact nextOf_concat_self

theorem send_sim {α : Type} {s : UInner α} {pre post : List Nat} {vs : List α}
    (h : UChainInv s pre post vs) (hd : s.drop_count = 0) (v : α) :
    ∃ s' pre1 node, s.send v = some (s', Except.ok (), [Wake.wakeReceiver]) ∧
      UChainInv s' pre1 (post ++ [node]) (vs ++ [v]) ∧
      s'.drop_count = s.drop_count ∧ s'.tail = s.tail := by
  obtain ⟨node, s1, pre1, hnn, hinv1, hnotmem, hlt, hnext, hhead, htail, hdc⟩ :=
    next_node_sim h
  obtain ⟨hnd, hbd, hhd, htl, hlast, htc, hch, hhn, hval⟩ := hinv1
  obtain ⟨nd, hndsome⟩ : ∃ nd, s1.nodes[node]? = some nd :=
    ⟨_, List.getElem?_eq_getElem hlt⟩
  have hndnext : nd.next = none := by
    rw [nextOf, hndsome] at hnext
    simpa using hnext
  have hpre1ne : pre1 ≠ [] := by
    intro h'
    rw [h'] at htl
    exact Option.noConfusion htl
  have holdmem : s1.head ∈ pre1 ++ post := List.mem_of_getLast?_eq_some hlast
  have holdne : s1.head ≠ node := fun h' => hnotmem (h' ▸ holdmem)
  have holdlt : s1.head < s1.nodes.length := hbd _ holdmem
  obtain ⟨oldNd, holdsome⟩ : ∃ x, s1.nodes[s1.head]? = some x :=
    ⟨_, List.getElem?_eq_getElem holdlt⟩
  have hold2 : (s1.nodes.set node { nd with value := some v })[s1.head]? = some oldNd := by
    rw [List.getElem?_set_ne (Ne.symm holdne)]
    exact holdsome
  -- the heap after the three writes of `send`
  set N4 : List (UNode α) :=
    (s1.nodes.set node { nd with value := some v }).set s1.head
      { oldNd with next := some node } with hN4
  have hN2all : ∀ a, nextOf (s1.nodes.set node { nd with value := some v }) a
      = nextOf s1.nodes a := nextOf_set_value hndsome
  have hN4val : ∀ a, valOf N4 a
      = valOf (s1.nodes.set node { nd with value := some v }) a :=
    valOf_set_next hold2
  have hN4next_ne : ∀ a, a ≠ s1.head → nextOf N4 a = nextOf s1.nodes a := by
    intro a ha
    rw [hN4, nextOf_set_ne (Ne.symm ha), hN2all]
  have hN4next_old : nextOf N4 s1.head = some (some node) := by
    rw [hN4, nextOf_set_self (by rw [List.length_set]; exact holdlt)]
  have hLne : pre1 ++ post ≠ [] := by
    intro h'
    rw [h'] at hlast
    exact Option.noConfusion hlast
  have hgl : (pre1 ++ post).getLast hLne = s1.head := by
    have := List.getLast?_eq_getLast (pre1 ++ post) hLne
    rw [this] at hlast
    exact Option.some.inj hlast
  have hdecomp : (pre1 ++ post).dropLast ++ [s1.head] = pre1 ++ post := by
    rw [← hgl]
    exact List.dropLast_concat_getLast hLne
  have holdnotdrop : s1.head ∉ (pre1 ++ post).dropLast := by
    have hnd' := hnd
    rw [← hdecomp, List.nodup_append] at hnd'
    intro hmem
    exact hnd'.2.2 hmem (by simp)
  refine ⟨{ s1 with nodes := N4, head := node }, pre1, node, ?_, ?_, hdc, htail⟩
  · -- computation of `send`
    simp only [UInner.send]
    rw [if_neg (by simp [hd] : ¬ s.drop_count ≠ 0), hnn]
    simp only [hndsome, hold2]
  · refine ⟨?_, ?_, ?_, ?_, ?_, ?_, ?_, ?_, ?_⟩
    · -- Nodup
      rw [← List.append_assoc, List.nodup_append]
      refine ⟨hnd, by simp, ?_⟩
      intro a ha hb
      simp only [List.mem_singleton] at hb
      subst hb
      exact hnotmem ha
    · -- bounds
      intro a ha
      rw [← List.append_assoc] at ha
      show a < N4.length
      rw [hN4, List.length_set, List.length_set]
      rcases List.mem_append.mp ha with h' | h'
      · exact hbd a h'
      · simp only [List.mem_singleton] at h'
        subst h'
        exact hlt
    · -- head pointer of the chain
      show (pre1 ++ (post ++ [node])).head? = some s1.next_for_reuse
      rw [List.head?_append_of_ne_nil _ hpre1ne]
      rw [List.head?_append_of_ne_nil _ hpre1ne] at hhd
      exact hhd
    · exact htl
    · show (pre1 ++ (post ++ [node])).getLast? = some node
      rw [← List.append_assoc]
      exact List.getLast?_concat _
    · exact htc
    · -- links
      show List.Chain' (fun a b => nextOf N4 a = some (some b)) (pre1 ++ (post ++ [node]))
      rw [← List.append_assoc, List.chain'_append]
      refine ⟨?_, by simp, ?_⟩
      · rw [← hdecomp, List.chain'_append] at hch ⊢
        obtain ⟨hc1, _, hc3⟩ := hch
        refine ⟨?_, by simp, ?_⟩
        · apply chain'_nextOf_congr ?_ hc1
          intro a ha
          exact hN4next_ne a (fun h' => holdnotdrop (h' ▸ ha))
        · intro x hx y hy
          have hx' : (pre1 ++ post).dropLast.getLast? = some x := hx
          have hy' : y = s1.head := by
            have : some s1.head = some y := hy
            exact (Option.some.inj this).symm
          subst hy'
          have hxmem : x ∈ (pre1 ++ post).dropLast :=
            List.mem_of_getLast?_eq_some hx'
          rw [hN4next_ne x (fun h' => holdnotdrop (h' ▸ hxmem))]
          exact hc3 x hx s1.head rfl
      · intro x hx y hy
        have hx' : x = s1.head := by
          have h1 : (pre1 ++ post).getLast? = some x := hx
          rw [hlast] at h1
          exact (Option.some.inj h1).symm
        have hy' : y = node := by
          have : some node = some y := hy
          exact (Option.some.inj this).symm
        subst hx'
        subst hy'
        exact hN4next_old
    · -- new head's next is null
      show nextOf N4 node = some none
      rw [hN4next_ne node (Ne.symm holdne), ← hnext]
    · -- queue contents
      show List.map (valOf N4) (post ++ [node])
        = List.map (fun v' => some (some v')) (vs ++ [v])
      rw [List.map_append, List.map_append]
      congr 1
      · rw [List.map_congr_left (fun a _ => hN4val a), ← hval]
        apply List.map_congr_left
        intro a ha
        exact valOf_set_ne (fun h' => hnotmem (h' ▸ List.mem_append_right _ ha))
      · simp only [List.map_cons, List.map_nil]
        rw [hN4val node]
        rw [valOf_set_self hlt]

theorem utryRecv_ok_sim {α : Type} {s : UInner α} {pre post : List Nat} {v : α}
    {vs : List α} (h : UChainInv s pre post (v :: vs)) :
    ∃ s' p post', post = p :: post' ∧
      s.try_recv = some (s', Except.ok v) ∧
      UChainInv s' (pre ++ [p]) post' vs ∧
      s'.drop_count = s.drop_count ∧ s'.nodes = s.nodes ∧ s'.head = s.head := by
  obtain ⟨hnd, hbd, hhd, htl, hlast, htc, hch, hhn, hval⟩ := h
  cases post with
  | nil => exact absurd hval (by simp)
  | cons p post' =>
  simp only [List.map_cons] at hval
  have hpv : valOf s.nodes p = some (some v) := (List.cons.injEq _ _ _ _ ▸ hval).1
  have hval' : List.map (valOf s.nodes) post' = List.map (fun w => some (some w)) vs :=
    (List.cons.injEq _ _ _ _ ▸ hval).2
  have hpre_ne : pre ≠ [] := by
    intro h'
    rw [h'] at htl
    exact Option.noConfusion htl
  have htailmem : s.tail ∈ pre := List.mem_of_getLast?_eq_some htl
  have htaillt : s.tail < s.nodes.length := hbd _ (List.mem_append_left _ htailmem)
  obtain ⟨tailNd, htailsome⟩ : ∃ x, s.nodes[s.tail]? = some x :=
    ⟨_, List.getElem?_eq_getElem htaillt⟩
  have hlink : nextOf s.nodes s.tail = some (some p) := by
    rw [List.chain'_append] at hch
    exact hch.2.2 s.tail htl p rfl
  have htailnext : tailNd.next = some p := by
    rw [nextOf, htailsome] at hlink
    simpa using hlink
  have hplt : p < s.nodes.length := hbd _ (List.mem_append_right _ (by simp))
  obtain ⟨pNd, hpsome⟩ : ∃ x, s.nodes[p]? = some x :=
    ⟨_, List.getElem?_eq_getElem hplt⟩
  have hpval : pNd.value = some v := by
    rw [valOf, hpsome] at hpv
    simpa using hpv
  refine ⟨{ s with tail := p }, p, post', rfl, ?_, ?_, rfl, rfl, rfl⟩
  · simp only [UInner.try_recv, htailsome, htailnext, UInner.readNode, hpsome, hpval]
  · refine ⟨?_, ?_, ?_, ?_, ?_, ?_, ?_, ?_, hval'⟩
    · rw [List.append_assoc]
      simpa using hnd
    · intro a ha
      rw [List.append_assoc] at ha
      exact hbd a (by simpa using ha)
    · show ((pre ++ [p]) ++ post').head? = some s.next_for_reuse
      rw [List.append_assoc, List.head?_append_of_ne_nil _ hpre_ne]
      rw [List.head?_append_of_ne_nil _ hpre_ne] at hhd
      exact hhd
    · exact List.getLast?_concat _
    · show ((pre ++ [p]) ++ post').getLast? = some s.head
      rw [List.append_assoc]
      simpa using hlast
    · exact List.mem_append_left _ htc
    · show List.Chain' (fun a b => nextOf s.nodes a = some (some b)) ((pre ++ [p]) ++ post')
      rw [List.append_assoc]
      simpa using hch
    · exact hhn

theorem utryRecv_empty_or_disc {α : Type} {s : UInner α} {pre post : List Nat}
    (h : UChainInv s pre post []) :
    s.try_recv = some (s,
      Except.error (if s.drop_count = 0 then TryRecvError.Empty
        else TryRecvError.Disconnected)) := by
  obtain ⟨hnd, hbd, hhd, htl, hlast, htc, hch, hhn, hval⟩ := h
  have hpost : post = [] := by
    cases post with
    | nil => rfl
    | cons p post' => exact absurd hval (by simp)
  subst hpost
  have htaileq : s.tail = s.head := by
    rw [List.append_nil] at hlast
    rw [htl] at hlast
    exact Option.some.inj hlast
  have htailmem : s.tail ∈ pre := List.mem_of_getLast?_eq_some htl
  have htaillt : s.tail < s.nodes.length := hbd _ (List.mem_append_left _ htailmem)
  obtain ⟨tailNd, htailsome⟩ : ∃ x, s.nodes[s.tail]? = some x :=
    ⟨_, List.getElem?_eq_getElem htaillt⟩
  have htailnext : tailNd.next = none := by
    have := hhn
    rw [← htaileq, nextOf, htailsome] at this
    simpa using this
  by_cases hd : s.drop_count = 0
  · simp only [UInner.try_recv, htailsome, htailnext, if_pos hd]
  · simp only [UInner.try_recv, htailsome, htailnext, if_neg hd]

theorem usendAll_ok {α : Type} {vs : List α} :
    ∀ {s : UInner α} {acc : List α},
    UInv s acc → s.drop_count = 0 →
    ∃ s', UInner.sendAll s vs = some s' ∧ UInv s' (acc ++ vs) ∧ s'.drop_count = 0 := by
  induction vs with
  | nil =>
    intro s acc h hd
    exact ⟨s, rfl, by simpa using h, hd⟩
  | cons v vs ih =>
    intro s acc h hd
    obtain ⟨pre, post, hch⟩ := h
    obtain ⟨s1, pre1, node, hsend, hinv1, hdc, _⟩ := send_sim hch hd v
    obtain ⟨s', hall, hinv', hd'⟩ := ih ⟨pre1, post ++ [node], hinv1⟩ (hdc.trans hd)
    refine ⟨s', ?_, by simpa using hinv', hd'⟩
    rw [UInner.sendAll, hsend]
    exact hall

theorem urecvN_sim {α : Type} {vs : List α} :
    ∀ {s : UInner α}, UInv s vs →
    ∃ s', UInner.recvN s vs.length = some (s', vs) ∧ UInv s' [] ∧
      s'.drop_count = s.drop_count := by
  induction vs with
  | nil =>
    intro s h
    exact ⟨s, rfl, h, rfl⟩
  | cons v vs ih =>
    intro s h
    obtain ⟨pre, post, hch⟩ := h
    obtain ⟨s1, p, post', hpost, hrecv, hinv1, hdc, _, _⟩ := utryRecv_ok_sim hch
    obtain ⟨s', hrest, hinv', hd'⟩ := ih ⟨pre ++ [p], post', hinv1⟩
    refine ⟨s', ?_, hinv', hd'.trans hdc⟩
    rw [List.length_cons, UInner.recvN, hrecv]
    simp only [hrest]

/-! ## Parker (`src/util/park/real.rs`) -/

/-- Flag state `NOTIFIED` (`real.rs:19`). -/
def NOTIFIED : Nat := 0

/-- Flag state `EMPTY` (`real.rs:20`). -/
def EMPTY : Nat := 1

/-- Flag state `PARKED` (`real.rs:21`). -/
def PARKED : Nat := 2

/-- The possible outcomes of a `park` call. -/
inductive ParkResult where
  | immediate (final : Nat)
  | slow (final : Nat)
  | panicked
  | stuck
deriving DecidableEq

/-- `Parker::park_slow` (`real.rs:61`): holding the lock, repeatedly
`compare_exchange(NOTIFIED, EMPTY)` — once on entry (before the first wait,
closing the notify-before-wait race) and again after every condvar wake, which
may be spurious.  `obs` is the sequence of flag values observed at those
checks (the concurrent environment controls them via `unpark`); the call
returns (with the flag reset to `EMPTY`) at the first observed `NOTIFIED`,
and is still waiting (`none`) if the observations run out. -/
def park_slow : List Nat → Option Nat
  | [] => none
  | o :: rest => if o = NOTIFIED then some EMPTY else park_slow rest

/-- `Parker::park` (`real.rs:43`): `state.fetch_add(1, Acquire)` and match on
the prior value: `NOTIFIED` (0) becomes `EMPTY` (1) and returns immediately
without blocking; `EMPTY` (1) becomes `PARKED` (2) and enters `park_slow`;
any other prior value panics. -/
def Parker.park (st : Nat) (obs : List Nat) : ParkResult :=
  if st = NOTIFIED then ParkResult.immediate (st + 1)
  else if st = EMPTY then
    match park_slow obs with
    | some f => ParkResult.slow f
    | none => ParkResult.stuck
  else ParkResult.panicked

/-- `Parker::unpark` (`real.rs:86`): swap the flag to `NOTIFIED`; if the
prior value was `PARKED`, take the lock and signal the condvar.  Returns
(new flag, prior flag, signalled). -/
def Parker.unpark (st : Nat) : Nat × Nat × Bool :=
  (NOTIFIED, st, decide (st = PARKED))

theorem park_slow_finds {obs : List Nat} (h : NOTIFIED ∈ obs) :
    park_slow obs = some EMPTY := by
  induction obs with
  | nil => exact absurd h (by simp)
  | cons o rest ih =>
    rw [park_slow]
    by_cases ho : o = NOTIFIED
    · rw [if_pos ho]
    · rw [if_neg ho]
      exact ih (by
        rcases List.mem_cons.mp h with h' | h'
        · exact absurd h'.symm ho
        · exact h')

theorem park_slow_misses {obs : List Nat} (h : NOTIFIED ∉ obs) :
    park_slow obs = none := by
  induction obs with
  | nil => rfl
  | cons o rest ih =>
    rw [park_slow, if_neg (fun h' : o = NOTIFIED => h (by rw [← h']; exact List.mem_cons_self o rest))]
    exact ih (fun h' => h (List.mem_cons_of_mem _ h'))

/-! ## The disconnect / deallocation handshakes -/

/-- The three disconnect-counter increments of an unbounded channel teardown:
the raw `fetch_add` in `Drop for Sender`, the sender's member
`InnerHolder` drop, and the receiver's `InnerHolder` drop. -/
inductive UDropEv where
  | senderRaw
  | senderHolder
  | receiverHolder
deriving DecidableEq

/-- Whether the increment is one of the two `InnerHolder` drops (only these
can deallocate). -/
def UDropEv.isHolder : UDropEv → Bool
  | UDropEv.senderRaw => false
  | UDropEv.senderHolder => true
  | UDropEv.receiverHolder => true

/-- Run a sequence of teardown increments against the shared state, logging
each increment's (prior value, deallocated?) pair.  `none` means some
`InnerHolder` drop hit `unreachable!()`. -/
def runUDrops {α : Type} : List UDropEv → UInner α → Option (UInner α × List (Nat × Bool))
  | [], s => some (s, [])
  | UDropEv.senderRaw :: es, s =>
    (runUDrops es s.dropSenderExplicit.1).map
      (fun r => (r.1, (s.dropSenderExplicit.2.1, s.dropSenderExplicit.2.2.1) :: r.2))
  | _ :: es, s =>
    match s.dropHolder with
    | none => none
    | some r1 =>
      (runUDrops es r1.1).map (fun r => (r.1, (r1.2.1, r1.2.2.1) :: r.2))

/-- The interleavings of the unbounded teardown events: the receiver's single
increment can come anywhere relative to the sender's two, which are ordered
(`Drop for Sender` runs its own body before dropping its `InnerHolder`
field). -/
def validUOrders : List (List UDropEv) :=
  [[UDropEv.senderRaw, UDropEv.senderHolder, UDropEv.receiverHolder],
   [UDropEv.senderRaw, UDropEv.receiverHolder, UDropEv.senderHolder],
   [UDropEv.receiverHolder, UDropEv.senderRaw, UDropEv.senderHolder]]

/-! ## Operations never decrease the disconnect counter -/

theorem trySend_dropCount (s : BInner α) (v : α) :
    ((s.try_send v).1).drop_count = s.drop_count := by
  simp only [BInner.try_send, BInner.commitSend]
  repeat' split
  all_goals rfl

theorem tryRecv_dropCount {s s' : BInner α} {r : Except TryRecvError α} {w : List Wake}
    (h : s.try_recv = some (s', r, w)) : s'.drop_count = s.drop_count := by
  simp only [BInner.try_recv, BInner.readSlot] at h
  repeat' split at h
  all_goals
    first
    | exact Option.noConfusion h
    | (simp only [Option.some.injEq, Prod.mk.injEq] at h
       obtain ⟨h1, -, -⟩ := h
       rw [← h1])

theorem unext_node_fast_dropCount {s : UInner α} {node : Nat} {s1 : UInner α}
    (h : s.next_node_fast = some (some (node, s1))) : s1.drop_count = s.drop_count := by
  simp only [UInner.next_node_fast] at h
  repeat' split at h
  all_goals
    first
    | exact Option.noConfusion h
    | exact Option.noConfusion (Option.some.inj h)
    | (simp only [Option.some.injEq, Prod.mk.injEq] at h
       obtain ⟨-, h1⟩ := h
       rw [← h1])

theorem unext_node_dropCount {s : UInner α} {node : Nat} {s1 : UInner α}
    (h : s.next_node = some (node, s1)) : s1.drop_count = s.drop_count := by
  simp only [UInner.next_node] at h
  split at h
  · exact Option.noConfusion h
  · rename_i r heq
    simp only [Option.some.injEq] at h
    subst h
    exact unext_node_fast_dropCount heq
  · split at h
    · exact Option.noConfusion h
    · rename_i r heq
      simp only [Option.some.injEq] at h
      subst h
      exact unext_node_fast_dropCount (s := { s with tail_cache := s.tail }) heq
    · simp only [Option.some.injEq, Prod.mk.injEq] at h
      obtain ⟨-, h1⟩ := h
      rw [← h1]

theorem usend_dropCount {s s' : UInner α} {v : α} {r : Except (SendError α) Unit}
    {w : List Wake} (h : s.send v = some (s', r, w)) : s'.drop_count = s.drop_count := by
  simp only [UInner.send] at h
  split at h
  · simp only [Option.some.injEq, Prod.mk.injEq] at h
    obtain ⟨h1, -, -⟩ := h
    rw [← h1]
  · split at h
    · exact Option.noConfusion h
    · rename_i node s1 hnn
      have hdc := unext_node_dropCount hnn
      repeat' split at h
      all_goals
        first
        | exact Option.noConfusion h
        | (simp only [Option.some.injEq, Prod.mk.injEq] at h
           obtain ⟨h1, -, -⟩ := h
           rw [← h1]
           exact hdc)

theorem utryRecv_dropCount {s s' : UInner α} {r : Except TryRecvError α}
    (h : s.try_recv = some (s', r)) : s'.drop_count = s.drop_count := by
  simp only [UInner.try_recv, UInner.readNode] at h
  repeat' split at h
  all_goals
    first
    | exact Option.noConfusion h
    | (simp only [Option.some.injEq, Prod.mk.injEq] at h
       obtain ⟨h1, -⟩ := h
       rw [← h1])

/-! ## Step relations over the public operations -/

/-- One public-API step on a bounded channel's shared state: a `try_send`
(any outcome), a returning `try_recv`, or an endpoint destructor's
increment. -/
inductive BStep {α : Type} : BInner α → BInner α → Prop where
  | send (s : BInner α) (v : α) : BStep s (s.try_send v).1
  | recv {s s' : BInner α} {r : Except TryRecvError α} {w : List Wake}
      (h : s.try_recv = some (s', r, w)) : BStep s s'
  | dropEnd (s : BInner α) : BStep s (s.dropEndpoint).1

/-- One public-API step on an unbounded channel's shared state. -/
inductive UStep {α : Type} : UInner α → UInner α → Prop where
  | send {s s' : UInner α} {v : α} {r : Except (SendError α) Unit} {w : List Wake}
      (h : s.send v = some (s', r, w)) : UStep s s'
  | recv {s s' : UInner α} {r : Except TryRecvError α}
      (h : s.try_recv = some (s', r)) : UStep s s'
  | dropS (s : UInner α) : UStep s (s.dropSenderExplicit).1
  | dropH {s : UInner α} {r1 : UInner α × Nat × Bool × List Wake}
      (h : s.dropHolder = some r1) : UStep s r1.1

theorem BStep_dropCount_mono {s s' : BInner α} (h : BStep s s') :
    s.drop_count ≤ s'.drop_count := by
  cases h with
  | send v => rw [trySend_dropCount]
  | recv h => rw [tryRecv_dropCount h]
  | dropEnd => simp [BInner.dropEndpoint]

theorem UStep_dropCount_mono {s s' : UInner α} (h : UStep s s') :
    s.drop_count ≤ s'.drop_count := by
  cases h with
  | send h => rw [usend_dropCount h]
  | recv h => rw [utryRecv_dropCount h]
  | dropS => simp [UInner.dropSenderExplicit]
  | dropH h =>
    simp only [UInner.dropHolder] at h
    split at h
    · exact Option.noConfusion h
    · simp only [Option.some.injEq] at h
      rw [← h]
      simp

/-! ## Wrap-around equivalence of the bounded channel -/

/-- Shift all four cursors of a bounded channel state by `δ`, modulo
`USIZE`.  For `δ = USIZE - c` this maps a state with cursors around `c` to
the corresponding state just below the overflow boundary. -/
def BInner.shiftCursors (s : BInner α) (δ : Nat) : BInner α :=
  { s with
      tail := (s.tail + δ) % USIZE
      head_cache := (s.head_cache + δ) % USIZE
      head := (s.head + δ) % USIZE
      tail_cache := (s.tail_cache + δ) % USIZE }

theorem mod_add_multiple {a δ c : Nat} (hc : 0 < c) (hδ : c ∣ δ) :
    (a + δ) % c = a % c := by
  obtain ⟨m, rfl⟩ := hδ
  exact Nat.add_mul_mod_self_left a c m

theorem shift_trySend {α : Type} {s : BInner α} {k δ : Nat} (hk : k ≤ 63)
    (hbuf : s.buffer.length = 2 ^ k) (hδ : 2 ^ k ∣ δ)
    (h1 : s.tail < USIZE) (h2 : s.head_cache < USIZE) (h3 : s.head < USIZE)
    (v : α) :
    (s.shiftCursors δ).try_send v =
      (((s.try_send v).1).shiftCursors δ, ((s.try_send v).2.1, (s.try_send v).2.2)) := by
  have hcap0 : (0 : Nat) < 2 ^ k := Nat.pos_pow_of_pos k (by norm_num)
  have hidx : (s.tail + δ) % USIZE &&& (s.buffer.length - 1)
      = s.tail &&& (s.buffer.length - 1) := by
    rw [hbuf, land_mask_eq_mod (by omega), Nat.and_pow_two_sub_one_eq_mod,
      mod_add_multiple hcap0 hδ]
  have hstore : ((s.tail + δ) % USIZE + 1) % USIZE = ((s.tail + 1) % USIZE + δ) % USIZE := by
    rw [USIZE_eq]
    omega
  have hfulliff : ((s.tail + δ) % USIZE = ((s.head_cache + δ) % USIZE + s.buffer.length)
        % USIZE) ↔ (s.tail = (s.head_cache + s.buffer.length) % USIZE) := by
    rw [USIZE_eq] at *
    omega
  have hfulliff2 : ((s.tail + δ) % USIZE = ((s.head + δ) % USIZE + s.buffer.length)
        % USIZE) ↔ (s.tail = (s.head + s.buffer.length) % USIZE) := by
    rw [USIZE_eq] at *
    omega
  by_cases hd : s.drop_count ≠ 0
  · simp only [BInner.try_send, BInner.shiftCursors, if_pos hd]
  · simp only [BInner.try_send, BInner.shiftCursors, if_neg hd]
    by_cases hc1 : s.tail = (s.head_cache + s.buffer.length) % USIZE
    · rw [if_pos hc1, if_pos (hfulliff.mpr hc1)]
      by_cases hc2 : s.tail = (s.head + s.buffer.length) % USIZE
      · rw [if_pos hc2, if_pos (hfulliff2.mpr hc2)]
      · rw [if_neg hc2, if_neg (fun h' => hc2 (hfulliff2.mp h'))]
        simp only [BInner.commitSend, hidx, hstore]
    · rw [if_neg hc1, if_neg (fun h' => hc1 (hfulliff.mp h'))]
      simp only [BInner.commitSend, hidx, hstore]

theorem shift_tryRecv {α : Type} {s : BInner α} {k δ : Nat} (hk : k ≤ 63)
    (hbuf : s.buffer.length = 2 ^ k) (hδ : 2 ^ k ∣ δ)
    (h1 : s.tail < USIZE) (h3 : s.head < USIZE) (h4 : s.tail_cache < USIZE) :
    (s.shiftCursors δ).try_recv =
      (s.try_recv).map (fun r => (r.1.shiftCursors δ, r.2.1, r.2.2)) := by
  have hcap0 : (0 : Nat) < 2 ^ k := Nat.pos_pow_of_pos k (by norm_num)
  have hidx : (s.head + δ) % USIZE &&& (s.buffer.length - 1)
      = s.head &&& (s.buffer.length - 1) := by
    rw [hbuf, land_mask_eq_mod (by omega), Nat.and_pow_two_sub_one_eq_mod,
      mod_add_multiple hcap0 hδ]
  have hstore : ((s.head + δ) % USIZE + 1) % USIZE
      = ((s.head + 1) % USIZE + δ) % USIZE := by
    rw [USIZE_eq]
    omega
  have hemptyiff : ((s.head + δ) % USIZE = (s.tail_cache + δ) % USIZE)
      ↔ (s.head = s.tail_cache) := by
    rw [USIZE_eq] at *
    omega
  have hemptyiff2 : ((s.head + δ) % USIZE = (s.tail + δ) % USIZE)
      ↔ (s.head = s.tail) := by
    rw [USIZE_eq] at *
    omega
  simp only [BInner.try_recv, BInner.readSlot, BInner.shiftCursors]
  by_cases hc1 : s.head = s.tail_cache
  · rw [if_pos hc1, if_pos (hemptyiff.mpr hc1)]
    by_cases hc2 : s.head = s.tail
    · rw [if_pos hc2, if_pos (hemptyiff2.mpr hc2)]
      by_cases hd : s.drop_count ≠ 0
      · rw [if_pos hd, if_pos hd, if_pos hc2, if_pos (hemptyiff2.mpr hc2)]
        simp
      · rw [if_neg hd, if_neg hd]
        simp
    · rw [if_neg hc2, if_neg (fun h' => hc2 (hemptyiff2.mp h'))]
      rw [hidx]
      cases hslot : s.buffer[s.head &&& (s.buffer.length - 1)]? with
      | none => simp [hslot]
      | some o =>
        cases o with
        | none => simp [hslot]
        | some v => simp [hslot, hstore]
  · rw [if_neg hc1, if_neg (fun h' => hc1 (hemptyiff.mp h'))]
    rw [hidx]
    cases hslot : s.buffer[s.head &&& (s.buffer.length - 1)]? with
    | none => simp [hslot]
    | some o =>
      cases o with
      | none => simp [hslot]
      | some v => simp [hslot, hstore]

/-! ## Specification of the capacity rounding -/

theorem checked_npot_spec {n p : Nat} (h : checked_next_power_of_two n = some p) :
    (∃ k, k ≤ 63 ∧ p = 2 ^ k) ∧ n ≤ p ∧
      ∀ m, (∃ j, m = 2 ^ j) → n ≤ m → p ≤ m := by
  simp only [checked_next_power_of_two, Option.map_eq_some'] at h
  obtain ⟨kk, hk, rfl⟩ := h
  rw [List.find?_range_eq_some] at hk
  obtain ⟨hp, hmem, hmin⟩ := hk
  have hk63 : kk ≤ 63 := by
    have := List.mem_range.mp hmem
    omega
  refine ⟨⟨kk, hk63, rfl⟩, by simpa using hp, ?_⟩
  rintro m ⟨j, rfl⟩ hnm
  rcases le_or_lt kk j with h' | h'
  · exact Nat.pow_le_pow_right (by norm_num) h'
  · exfalso
    have := hmin j h'
    simp only [Bool.not_eq_eq_eq_not, Bool.not_true, decide_eq_false_iff_not,
      Nat.not_le] at this
    omega

theorem checked_npot_none {n : Nat} :
    checked_next_power_of_two n = none ↔ 2 ^ 63 < n := by
  simp only [checked_next_power_of_two, Option.map_eq_none', List.find?_range_eq_none]
  constructor
  · intro h
    have := h 63 (by norm_num)
    simpa using this
  · intro h i hi
    have hpow : (2 : Nat) ^ i ≤ 2 ^ 63 := Nat.pow_le_pow_right (by norm_num) (by omega)
    simp only [Bool.not_eq_eq_eq_not, Bool.not_true, decide_eq_false_iff_not, Nat.not_le]
    omega

/-! ## Reachability and occupancy of the bounded channel -/

/-- The wrapping difference `tail - head` (Rust `tail.wrapping_sub(head)`):
the number of sent-but-unreceived items. -/
def BInner.occupancy (s : BInner α) : Nat :=
  (s.tail + (USIZE - s.head)) % USIZE

theorem BInv_occupancy {α : Type} {s : BInner α} {cap : Nat} {vs : List α}
    (h : BInv s cap vs) : s.occupancy = vs.length ∧ vs.length ≤ cap := by
  obtain ⟨k, H, T, HC, TC, hcap, hk, hbuf, hH, hT, hHC, hTC, o1, o2, o3, o4, hlen, hcont⟩ := h
  subst hcap
  have hcapU : 2 ^ k < USIZE := pow_lt_USIZE hk
  constructor
  · rw [BInner.occupancy, hH, hT, hlen]
    rw [USIZE_eq] at *
    omega
  · omega

theorem trySend_disc_state {s : BInner α} (hd : s.drop_count ≠ 0) (v : α) :
    s.try_send v = (s, Except.error (TrySendError.Disconnected v), []) := by
  simp [BInner.try_send, hd]

theorem BStep_BInv {α : Type} {s s' : BInner α} {cap : Nat} {vs : List α}
    (hinv : BInv s cap vs) (hstep : BStep s s') : ∃ vs', BInv s' cap vs' := by
  cases hstep with
  | send v =>
    by_cases hd : s.drop_count = 0
    · rcases Nat.lt_or_ge vs.length cap with hlt | hge
      · obtain ⟨s1, h1, h2, -, -⟩ := trySend_ok_sim hinv hd hlt v
        rw [h1]
        exact ⟨_, h2⟩
      · have hfull := trySend_full_sim hinv hd
          (Nat.le_antisymm (BInv_length_le hinv) hge) v
        rw [hfull.1]
        exact ⟨_, hfull.2⟩
    · rw [trySend_disc_state hd v]
      exact ⟨vs, hinv⟩
  | recv h =>
    cases vs with
    | cons v vs' =>
      obtain ⟨s1, h1, h2, -⟩ := tryRecv_ok_sim hinv
      rw [h1] at h
      simp only [Option.some.injEq, Prod.mk.injEq] at h
      obtain ⟨h3, -, -⟩ := h
      exact ⟨vs', h3 ▸ h2⟩
    | nil =>
      by_cases hd : s.drop_count = 0
      · have he := tryRecv_empty_sim hinv hd
        rw [he.1] at h
        simp only [Option.some.injEq, Prod.mk.injEq] at h
        obtain ⟨h3, -, -⟩ := h
        exact ⟨[], h3 ▸ he.2⟩
      · have he := tryRecv_disc_sim hinv hd
        rw [he.1] at h
        simp only [Option.some.injEq, Prod.mk.injEq] at h
        obtain ⟨h3, -, -⟩ := h
        exact ⟨[], h3 ▸ he.2⟩
  | dropEnd =>
    refine ⟨vs, ?_⟩
    obtain ⟨k, H, T, HC, TC, hcap, hk, hbuf, hH, hT, hHC, hTC, o1, o2, o3, o4, hlen, hcont⟩ :=
      hinv
    exact ⟨k, H, T, HC, TC, hcap, hk, hbuf, hH, hT, hHC, hTC, o1, o2, o3, o4, hlen, hcont⟩

theorem BReach_BInv {α : Type} {k : Nat} {s : BInner α} (hk : k ≤ 63)
    (h : Relation.ReflTransGen BStep (BInner.new α (2 ^ k)) s) :
    ∃ vs, BInv s (2 ^ k) vs := by
  induction h with
  | refl => exact ⟨[], BInv_new α hk⟩
  | tail h1 h2 ih =>
    obtain ⟨vs, hinv⟩ := ih
    exact BStep_BInv hinv h2

/-! ## Blocking wrappers agree with the non-blocking primitives -/

theorem recv_one_ok {s s' : BInner α} {v : α} {w : List Wake}
    (h : s.try_recv = some (s', Except.ok v, w)) :
    BInner.recv 1 s = some (s', Except.ok v) := by
  simp only [BInner.recv, h]

theorem recv_one_disc {s s' : BInner α} {w : List Wake}
    (h : s.try_recv = some (s', Except.error TryRecvError.Disconnected, w)) :
    BInner.recv 1 s = some (s', Except.error ⟨⟩) := by
  simp only [BInner.recv, h]

theorem send_one_ok {s s' : BInner α} {v : α} {w : List Wake}
    (h : s.try_send v = (s', Except.ok (), w)) :
    BInner.send 1 s v = some (s', Except.ok ()) := by
  simp only [BInner.send, h]

theorem urecv_one_ok {s s' : UInner α} {v : α}
    (h : s.try_recv = some (s', Except.ok v)) :
    UInner.recv 1 s = some (s', Except.ok v) := by
  simp only [UInner.recv, h]

theorem urecv_one_disc {s s' : UInner α}
    (h : s.try_recv = some (s', Except.error TryRecvError.Disconnected)) :
    UInner.recv 1 s = some (s', Except.error ⟨⟩) := by
  simp only [UInner.recv, h]

/-! ## `Disconnected` is only reported once the queue is drained -/

theorem tryRecv_disc_drained {α : Type} {s s' : BInner α} {cap : Nat} {vs : List α}
    {w : List Wake} (hinv : BInv s cap vs)
    (h : s.try_recv = some (s', Except.error TryRecvError.Disconnected, w)) :
    vs = [] := by
  cases vs with
  | nil => rfl
  | cons v vs' =>
    obtain ⟨s1, h1, -, -⟩ := tryRecv_ok_sim hinv
    rw [h1] at h
    simp at h

theorem utryRecv_disc_drained {α : Type} {s s' : UInner α} {vs : List α}
    (hinv : UInv s vs)
    (h : s.try_recv = some (s', Except.error TryRecvError.Disconnected)) :
    vs = [] := by
  cases vs with
  | nil => rfl
  | cons v vs' =>
    obtain ⟨pre, post, hch⟩ := hinv
    obtain ⟨s1, p, post', -, h1, -, -⟩ := utryRecv_ok_sim hch
    rw [h1] at h
    simp at h

theorem sendAll_ok {α : Type} {vs : List α} :
    ∀ {s : BInner α} {cap : Nat} {acc : List α},
    BInv s cap acc → s.drop_count = 0 → acc.length + vs.length ≤ cap →
    ∃ s', BInner.sendAll s vs = some s' ∧ BInv s' cap (acc ++ vs) ∧
      s'.drop_count = 0 := by
  induction vs with
  | nil =>
    intro s cap acc h hd _
    exact ⟨s, rfl, by simpa using h, hd⟩
  | cons v vs ih =>
    intro s cap acc h hd hle
    have hlt : acc.length < cap := by
      simp only [List.length_cons] at hle
      omega
    obtain ⟨s1, h1, h2, h3, -⟩ := trySend_ok_sim h hd hlt v
    obtain ⟨s', h4, h5, h6⟩ := ih h2 (h3.trans hd) (by simp at hle ⊢; omega)
    refine ⟨s', ?_, by simpa using h5, h6⟩
    rw [BInner.sendAll, h1]
    exact h4

/-! ## The claims -/

/-- C1: FIFO order.  For every sequence of values `vs` sent by the producer
(via `try_send` on the bounded channel, `send` on the unbounded one) and
completed before any receive, the following receives return exactly `vs` in
order, for both channel flavors; moreover the blocking `recv` (resp. `send`)
returns exactly what a returning `try_recv` (resp. successful `try_send`)
returns, so the same holds through the blocking API. -/
theorem C1_fifo_order :
    (∀ (α : Type) (mc : Nat) (s0 s1 : BInner α) (vs : List α),
      boundedChannel α mc = some s0 → BInner.sendAll s0 vs = some s1 →
      ∃ s2, BInner.recvN s1 vs.length = some (s2, vs)) ∧
    (∀ (α : Type) (s1 : UInner α) (vs : List α),
      UInner.sendAll (UInner.new α) vs = some s1 →
      ∃ s2, UInner.recvN s1 vs.length = some (s2, vs)) ∧
    (∀ (α : Type) (s s' : BInner α) (v : α) (w : List Wake),
      s.try_recv = some (s', Except.ok v, w) →
      BInner.recv 1 s = some (s', Except.ok v)) ∧
    (∀ (α : Type) (s s' : UInner α) (v : α),
      s.try_recv = some (s', Except.ok v) →
      UInner.recv 1 s = some (s', Except.ok v)) ∧
    (∀ (α : Type) (s s' : BInner α) (v : α) (w : List Wake),
      s.try_send v = (s', Except.ok (), w) →
      BInner.send 1 s v = some (s', Except.ok ())) := by
  refine ⟨?_, ?_, ?_, ?_, ?_⟩
  · intro α mc s0 s1 vs hch hsend
    obtain ⟨k, hk, -, hinv, -, hd⟩ := boundedChannel_inv hch
    obtain ⟨hinv1, -⟩ := sendAll_inv hinv hd hsend
    obtain ⟨s2, h2, -, -⟩ := recvN_sim (by simpa using hinv1)
    exact ⟨s2, h2⟩
  · intro α s1 vs hsend
    obtain ⟨s1', hall, hinv, -⟩ := @usendAll_ok α vs (UInner.new α) [] (UInv_new α) rfl
    rw [hsend] at hall
    obtain rfl : s1 = s1' := Option.some.inj hall
    obtain ⟨s2, h2, -, -⟩ := urecvN_sim (by simpa using hinv)
    exact ⟨s2, h2⟩
  · intro α s s' v w h
    exact recv_one_ok h
  · intro α s s' v h
    exact urecv_one_ok h
  · intro α s s' v w h
    exact send_one_ok h

/-- Witness for C1 at a concrete input: requested capacity 2, values 5, 7. -/
theorem C1_fifo_order_witness :
    (∃ s2, BInner.recvN (⟨2, 0, 0, 0, [some 5, some 7], 0⟩ : BInner Nat) 2
      = some (s2, [5, 7])) ∧
    (∃ s2, UInner.recvN (⟨[⟨some 1, none⟩, ⟨none, some 5⟩], 1, 0, 0, 0, 0⟩ : UInner Nat) 1
      = some (s2, [5])) :=
  ⟨C1_fifo_order.1 Nat 2 (BInner.new Nat 2) _ [5, 7] (by decide) (by decide),
   C1_fifo_order.2.1 Nat _ [5] (by decide)⟩

/-- C2: drain before disconnect.  After the producer sends `vs` and is then
destroyed (the bounded destructor performs its single increment; the
unbounded `Drop for Sender` performs its raw increment and its
`InnerHolder` increment), the consumer receives exactly `vs` in order, and
only then do `try_recv` report `Disconnected` and `recv` report `RecvError`.
The final two conjuncts show `Disconnected` is never reported while the
queue is nonempty (the disconnect path re-reads the producer's cursor /
tail `next` pointer, so pending items win over the disconnect flag). -/
theorem C2_drain_before_disconnect :
    (∀ (α : Type) (mc : Nat) (s0 s1 : BInner α) (vs : List α),
      boundedChannel α mc = some s0 → BInner.sendAll s0 vs = some s1 →
      ∃ s2 s3 s4, BInner.recvN (s1.dropEndpoint).1 vs.length = some (s2, vs) ∧
        s2.try_recv = some (s3, Except.error TryRecvError.Disconnected, []) ∧
        BInner.recv 1 s2 = some (s4, Except.error ⟨⟩)) ∧
    (∀ (α : Type) (s1 : UInner α) (vs : List α),
      UInner.sendAll (UInner.new α) vs = some s1 →
      ∃ r2, ((s1.dropSenderExplicit).1).dropHolder = some r2 ∧
      ∃ s3, UInner.recvN r2.1 vs.length = some (s3, vs) ∧
        s3.try_recv = some (s3, Except.error TryRecvError.Disconnected) ∧
        UInner.recv 1 s3 = some (s3, Except.error ⟨⟩)) ∧
    (∀ (α : Type) (s s' : BInner α) (cap : Nat) (vs : List α) (w : List Wake),
      BInv s cap vs →
      s.try_recv = some (s', Except.error TryRecvError.Disconnected, w) → vs = []) ∧
    (∀ (α : Type) (s s' : UInner α) (vs : List α),
      UInv s vs →
      s.try_recv = some (s', Except.error TryRecvError.Disconnected) → vs = []) := by
  refine ⟨?_, ?_, ?_, ?_⟩
  · intro α mc s0 s1 vs hch hsend
    obtain ⟨k, hk, -, hinv, -, hd⟩ := boundedChannel_inv hch
    obtain ⟨hinv1, hd1⟩ := sendAll_inv hinv hd hsend
    have hinv2 : BInv (s1.dropEndpoint).1 (2 ^ k) vs := by
      obtain ⟨k', H, T, HC, TC, rest⟩ := (by simpa using hinv1 : BInv s1 (2 ^ k) vs)
      exact ⟨k', H, T, HC, TC, rest⟩
    obtain ⟨s2, h2, hinv3, hd2⟩ := recvN_sim hinv2
    have hd3 : s2.drop_count ≠ 0 := by
      rw [hd2]
      simp [BInner.dropEndpoint, hd1]
    have hdisc := tryRecv_disc_sim hinv3 hd3
    exact ⟨s2, _, _, h2, hdisc.1, recv_one_disc hdisc.1⟩
  · intro α s1 vs hsend
    obtain ⟨s1', hall, hinv, hd⟩ := @usendAll_ok α vs (UInner.new α) [] (UInv_new α) rfl
    rw [hsend] at hall
    obtain rfl : s1 = s1' := Option.some.inj hall
    simp only [List.nil_append] at hinv
    have hhold : ((s1.dropSenderExplicit).1).dropHolder
        = some ({ s1 with drop_count := s1.drop_count + 1 + 1 },
            s1.drop_count + 1, false, []) := by
      simp [UInner.dropHolder, UInner.dropSenderExplicit, hd]
    refine ⟨_, hhold, ?_⟩
    have hinv2 : UInv { s1 with drop_count := s1.drop_count + 1 + 1 } vs := by
      obtain ⟨pre, post, hch⟩ := hinv
      exact ⟨pre, post, hch⟩
    obtain ⟨s3, h3, hinv3, hd3⟩ := urecvN_sim hinv2
    have hd4 : ¬ s3.drop_count = 0 := by
      rw [hd3]
      simp [hd]
    obtain ⟨pre, post, hch3⟩ := hinv3
    have hdisc := utryRecv_empty_or_disc hch3
    rw [if_neg hd4] at hdisc
    exact ⟨s3, h3, hdisc, urecv_one_disc hdisc⟩
  · intro α s s' cap vs w hinv h
    exact tryRecv_disc_drained hinv h
  · intro α s s' vs hinv h
    exact utryRecv_disc_drained hinv h

/-- Witness for C2 at a concrete input: send 5 and 7, drop the producer,
then drain and observe `Disconnected`. -/
theorem C2_drain_before_disconnect_witness :
    (∃ s2 s3 s4,
      BInner.recvN ((⟨2, 0, 0, 0, [some 5, some 7], 0⟩ : BInner Nat).dropEndpoint).1 2
        = some (s2, [5, 7]) ∧
      s2.try_recv = some (s3, Except.error TryRecvError.Disconnected, []) ∧
      BInner.recv 1 s2 = some (s4, Except.error ⟨⟩)) ∧
    (∃ r2, (((⟨[⟨some 1, none⟩, ⟨none, some 5⟩], 1, 0, 0, 0, 0⟩ :
          UInner Nat).dropSenderExplicit).1).dropHolder = some r2 ∧
      ∃ s3, UInner.recvN r2.1 1 = some (s3, [5]) ∧
        s3.try_recv = some (s3, Except.error TryRecvError.Disconnected) ∧
        UInner.recv 1 s3 = some (s3, Except.error ⟨⟩)) :=
  ⟨C2_drain_before_disconnect.1 Nat 2 (BInner.new Nat 2) _ [5, 7] (by decide) (by decide),
   C2_drain_before_disconnect.2.1 Nat _ [5] (by decide)⟩

/-- C3: capacity rounding and capacity bound.  `checked_next_power_of_two`
returns the least power of two `≥ min_capacity` (and fails — the source
panics — exactly when no usize power of two suffices); the constructed
channel's buffer has that capacity; from the fresh channel, any `capacity`
consecutive `try_send`s succeed and the next `try_send` returns `Full`
carrying the rejected item. -/
theorem C3_capacity_rounding :
    (∀ mc p : Nat, checked_next_power_of_two mc = some p →
      (∃ k, k ≤ 63 ∧ p = 2 ^ k) ∧ mc ≤ p ∧
        ∀ m, (∃ j, m = 2 ^ j) → mc ≤ m → p ≤ m) ∧
    (∀ mc : Nat, checked_next_power_of_two mc = none ↔ 2 ^ 63 < mc) ∧
    (∀ (α : Type) (mc : Nat) (s0 : BInner α), boundedChannel α mc = some s0 →
      checked_next_power_of_two mc = some s0.buffer.length) ∧
    (∀ (α : Type) (mc : Nat) (s0 : BInner α) (vs : List α),
      boundedChannel α mc = some s0 → vs.length = s0.buffer.length →
      ∃ s1, BInner.sendAll s0 vs = some s1 ∧
        ∀ v : α, s1.try_send v = ({ s1 with head_cache := s1.head },
          Except.error (TrySendError.Full v), [Wake.wakeReceiver])) := by
  refine ⟨fun mc p h => checked_npot_spec h, fun mc => checked_npot_none, ?_, ?_⟩
  · intro α mc s0 h
    simp only [boundedChannel, Option.map_eq_some'] at h
    obtain ⟨p, hp, rfl⟩ := h
    simpa [BInner.new] using hp
  · intro α mc s0 vs hch hlen
    obtain ⟨k, hk, -, hinv, hbuf, hd⟩ := boundedChannel_inv hch
    rw [hbuf] at hlen
    obtain ⟨s1, h1, h2, h3⟩ := sendAll_ok hinv hd (by simpa using Nat.le_of_eq hlen)
    refine ⟨s1, h1, fun v => ?_⟩
    exact (trySend_full_sim h2 h3 (by simpa using hlen) v).1

/-- Witness for C3 at the spec's concrete input: requested capacity 3 rounds
to 4; sends of 1, 2, 3, 4 all succeed and `try_send 5` returns `Full 5`. -/
theorem C3_capacity_rounding_witness :
    ((∃ k, k ≤ 63 ∧ 4 = 2 ^ k) ∧ 3 ≤ 4 ∧
      ∀ m, (∃ j, m = 2 ^ j) → 3 ≤ m → 4 ≤ m) ∧
    (∃ s1, BInner.sendAll (BInner.new Nat 4) [1, 2, 3, 4] = some s1 ∧
      ∀ v : Nat, s1.try_send v = ({ s1 with head_cache := s1.head },
        Except.error (TrySendError.Full v), [Wake.wakeReceiver])) :=
  ⟨C3_capacity_rounding.1 3 4 (by decide),
   C3_capacity_rounding.2.2.2 Nat 3 (BInner.new Nat 4) [1, 2, 3, 4]
     (by decide) (by decide)⟩

/-- C10: the zero-capacity edge case.  `channel(0)` does not fail: capacity
0 rounds up to 1, one `try_send` succeeds from empty and the next returns
`Full`. -/
theorem C10_zero_capacity :
    ∀ (α : Type) (v w : α),
      boundedChannel α 0 = some (BInner.new α 1) ∧
      (BInner.new α 1).try_send v
        = (⟨1, 0, 0, 0, [some v], 0⟩, Except.ok (), [Wake.wakeReceiver]) ∧
      (⟨1, 0, 0, 0, [some v], 0⟩ : BInner α).try_send w
        = (⟨1, 0, 0, 0, [some v], 0⟩, Except.error (TrySendError.Full w),
            [Wake.wakeReceiver]) := by
  intro α v w
  refine ⟨rfl, ?_, ?_⟩ <;>
    simp [BInner.new, BInner.try_send, BInner.commitSend, USIZE_eq, List.replicate]

/-- C4: exactly-once deallocation.  Bounded: both endpoint destructors run
the same code, so either destruction order is the sequence below — the first
increment observes 0 and does not deallocate, the second observes 1 and
deallocates, and no larger value is ever observed.  Unbounded: in each of
the three possible interleavings of the sender's two ordered increments and
the receiver's one, the increments observe 0, 1, 2 in order, only the final
increment (always an `InnerHolder` drop, never the raw `Drop for Sender`
increment) deallocates, and no increment observes a value above 2 (the
`unreachable!()` arm is never hit, so `runUDrops` returns `some`). -/
theorem C4_exactly_once_dealloc :
    (∀ (α : Type) (s : BInner α), s.drop_count = 0 →
      s.dropEndpoint.2.1 = 0 ∧ s.dropEndpoint.2.2.1 = false ∧
      (s.dropEndpoint.1).dropEndpoint.2.1 = 1 ∧
      (s.dropEndpoint.1).dropEndpoint.2.2.1 = true) ∧
    (∀ (α : Type) (s : UInner α), s.drop_count = 0 →
      ∀ o ∈ validUOrders,
        runUDrops o s = some ({ s with drop_count := 3 },
          [(0, false), (1, false), (2, true)])) ∧
    (∀ o ∈ validUOrders, (o.getLast?).map UDropEv.isHolder = some true) := by
  refine ⟨?_, ?_, by decide⟩
  · intro α s hd
    simp [BInner.dropEndpoint, hd]
  · intro α s hd o ho
    simp only [validUOrders, List.mem_cons, List.mem_singleton] at ho
    rcases ho with rfl | rfl | rfl | h
    · simp [runUDrops, UInner.dropSenderExplicit, UInner.dropHolder, hd]
    · simp [runUDrops, UInner.dropSenderExplicit, UInner.dropHolder, hd]
    · simp [runUDrops, UInner.dropSenderExplicit, UInner.dropHolder, hd]
    · exact absurd h (by simp)

/-- Witness for C4: a fresh channel of each flavor, the first unbounded
teardown order. -/
theorem C4_exactly_once_dealloc_witness :
    ((BInner.new Nat 1).dropEndpoint.2.1 = 0 ∧
      (BInner.new Nat 1).dropEndpoint.2.2.1 = false ∧
      ((BInner.new Nat 1).dropEndpoint.1).dropEndpoint.2.1 = 1 ∧
      ((BInner.new Nat 1).dropEndpoint.1).dropEndpoint.2.2.1 = true) ∧
    runUDrops [UDropEv.senderRaw, UDropEv.senderHolder, UDropEv.receiverHolder]
        (UInner.new Nat)
      = some ({ UInner.new Nat with drop_count := 3 },
          [(0, false), (1, false), (2, true)]) :=
  ⟨C4_exactly_once_dealloc.1 Nat (BInner.new Nat 1) rfl,
   C4_exactly_once_dealloc.2.1 Nat (UInner.new Nat) rfl _ (by decide)⟩

/-- C5 evaluation: the bounded endpoint destructors never call `unpark` —
the `if` branch taken when the prior counter value is 0 is empty in the
source, so the ghost wake log is `[]` for every state, including the
first-increment case the claim is about.  By contrast the unbounded
`Drop for Sender` does unpark the receiver, while the unbounded receiver's
teardown (`InnerHolder::drop` alone) also never unparks. -/
theorem C5_drop_wake_evaluation :
    (∀ (α : Type) (s : BInner α), s.dropEndpoint.2.2.2 = []) ∧
    (∀ (α : Type) (s : UInner α), s.dropSenderExplicit.2.2.2 = [Wake.wakeReceiver]) ∧
    (∀ (α : Type) (s : UInner α),
      ((s.dropHolder).map (fun r => r.2.2.2)).getD [] = []) := by
  refine ⟨fun α s => rfl, fun α s => rfl, fun α s => ?_⟩
  simp only [UInner.dropHolder]
  split <;> rfl

/-- C6: the Parker `park` contract.  With the flag `NOTIFIED`, `park`
consumes the notification (flag becomes `EMPTY`) and returns immediately;
with the flag `EMPTY` it parks (flag `PARKED`) and blocks, re-checking at
every wake, returning — with the flag reset to `EMPTY` — exactly when a
check observes `NOTIFIED`, and remaining blocked if none does; any other
flag value at the call panics. -/
theorem C6_parker_contract :
    (∀ obs : List Nat, Parker.park NOTIFIED obs = ParkResult.immediate EMPTY) ∧
    (∀ obs : List Nat, NOTIFIED ∈ obs →
      Parker.park EMPTY obs = ParkResult.slow EMPTY) ∧
    (∀ obs : List Nat, NOTIFIED ∉ obs → Parker.park EMPTY obs = ParkResult.stuck) ∧
    (∀ (st : Nat) (obs : List Nat), PARKED ≤ st →
      Parker.park st obs = ParkResult.panicked) := by
  have hunfold : ∀ obs : List Nat, Parker.park EMPTY obs =
      (match park_slow obs with
        | some f => ParkResult.slow f
        | none => ParkResult.stuck) := fun _ => rfl
  refine ⟨fun obs => rfl, ?_, ?_, ?_⟩
  · intro obs h
    rw [hunfold obs, park_slow_finds h]
  · intro obs h
    rw [hunfold obs, park_slow_misses h]
  · intro st obs h
    have h1 : ¬ st = NOTIFIED := by
      simp only [NOTIFIED]
      simp only [PARKED] at h
      omega
    have h2 : ¬ st = EMPTY := by
      simp only [EMPTY]
      simp only [PARKED] at h
      omega
    simp only [Parker.park, if_neg h1, if_neg h2]

/-- Witness for C6: a parked thread woken spuriously once and then
notified; a parked thread that is never notified; a double-park panic. -/
theorem C6_parker_contract_witness :
    Parker.park EMPTY [PARKED, NOTIFIED] = ParkResult.slow EMPTY ∧
    Parker.park EMPTY [PARKED] = ParkResult.stuck ∧
    Parker.park PARKED [] = ParkResult.panicked :=
  ⟨C6_parker_contract.2.1 [PARKED, NOTIFIED] (by decide),
   C6_parker_contract.2.2.1 [PARKED] (by decide),
   C6_parker_contract.2.2.2 PARKED [] (by decide)⟩

/-- C7: error atomicity of bounded `try_send`.  When the peer has
disconnected, `try_send` returns `Disconnected(item)` immediately with the
state fully untouched (the counter is checked before anything else).  In
every failing case the returned error carries the very item passed in, no
buffer slot is written and the write cursor is unchanged, and the `Full`
case arises exactly when the buffer holds `capacity` items even after the
cached read cursor has been refreshed to the true read cursor — in which
case the consumer is woken. -/
theorem C7_trySend_error_atomicity :
    (∀ (α : Type) (s : BInner α) (v : α), s.drop_count ≠ 0 →
      s.try_send v = (s, Except.error (TrySendError.Disconnected v), [])) ∧
    (∀ (α : Type) (s s' : BInner α) (v : α) (e : TrySendError α) (w : List Wake),
      s.try_send v = (s', Except.error e, w) →
      (s'.buffer = s.buffer ∧ s'.tail = s.tail ∧ s'.head = s.head ∧
        s'.drop_count = s.drop_count) ∧
      ((s.drop_count ≠ 0 ∧ e = TrySendError.Disconnected v ∧ s' = s ∧ w = []) ∨
       (s.drop_count = 0 ∧ e = TrySendError.Full v ∧ w = [Wake.wakeReceiver] ∧
        s.tail = (s.head + s.buffer.length) % USIZE ∧
        s' = { s with head_cache := s.head }))) := by
  refine ⟨fun α s v hd => trySend_disc_state hd v, ?_⟩
  intro α s s' v e w h
  by_cases hd : s.drop_count = 0
  · simp only [BInner.try_send, BInner.commitSend] at h
    rw [if_neg (by simp [hd] : ¬ s.drop_count ≠ 0)] at h
    by_cases hc1 : s.tail = (s.head_cache + s.buffer.length) % USIZE
    · rw [if_pos hc1] at h
      by_cases hc2 : s.tail = (({ s with head_cache := s.head }).head_cache
          + s.buffer.length) % USIZE
      · rw [if_pos hc2] at h
        simp only [Prod.mk.injEq] at h
        obtain ⟨h1, h2, h3⟩ := h
        refine ⟨⟨by rw [← h1], by rw [← h1], by rw [← h1], by rw [← h1]⟩, Or.inr ?_⟩
        exact ⟨hd, by simp_all, h3.symm, hc2, h1.symm⟩
      · rw [if_neg hc2] at h
        simp only [Prod.mk.injEq] at h
        exact absurd h.2.1 (by simp)
    · rw [if_neg hc1] at h
      simp only [Prod.mk.injEq] at h
      exact absurd h.2.1 (by simp)
  · rw [trySend_disc_state hd v] at h
    simp only [Prod.mk.injEq] at h
    obtain ⟨h1, h2, h3⟩ := h
    refine ⟨⟨by rw [← h1], by rw [← h1], by rw [← h1], by rw [← h1]⟩, Or.inl ?_⟩
    exact ⟨hd, by simp_all, h1.symm, h3.symm⟩

/-- Witness for C7: a disconnected single-slot channel rejects the item
untouched; a full one returns `Full` with the item. -/
theorem C7_trySend_error_atomicity_witness :
    ((⟨0, 0, 0, 0, [none], 1⟩ : BInner Nat).try_send 5
      = (⟨0, 0, 0, 0, [none], 1⟩, Except.error (TrySendError.Disconnected 5), [])) ∧
    (((⟨1, 0, 0, 0, [some 9], 0⟩ : BInner Nat).try_send 5).2.1
        = Except.error (TrySendError.Full 5) ∧
      (⟨1, 0, 0, 0, [some 9], 0⟩ : BInner Nat).tail
        = ((⟨1, 0, 0, 0, [some 9], 0⟩ : BInner Nat).head + 1) % USIZE) :=
  ⟨C7_trySend_error_atomicity.1 Nat ⟨0, 0, 0, 0, [none], 1⟩ 5 (by decide),
   by
     have h := C7_trySend_error_atomicity.2 Nat ⟨1, 0, 0, 0, [some 9], 0⟩
       ((⟨1, 0, 0, 0, [some 9], 0⟩ : BInner Nat).try_send 5).1 5
       (TrySendError.Full 5) [Wake.wakeReceiver] (by decide)
     rcases h.2 with ⟨hbad, -⟩ | ⟨-, -, -, hfull, -⟩
     · exact absurd rfl hbad
     · exact ⟨by decide, by simpa using hfull⟩⟩

/-- C8: monotone disconnect observation.  `peer_connected`
(`receiver_connected` / `sender_connected`) reports `false` from the moment
a peer destructor has performed its first increment, and once it reports
`false` on an endpoint it never reports `true` again under any further
steps of the public API (the disconnect counter never decreases). -/
theorem C8_monotone_disconnect :
    (∀ (α : Type) (s : BInner α), (s.dropEndpoint.1).peer_connected = false) ∧
    (∀ (α : Type) (s : UInner α), (s.dropSenderExplicit.1).peer_connected = false ∧
      ∀ r, s.dropHolder = some r → (r.1).peer_connected = false) ∧
    (∀ (α : Type) (s s' : BInner α), Relation.ReflTransGen BStep s s' →
      s.peer_connected = false → s'.peer_connected = false) ∧
    (∀ (α : Type) (s s' : UInner α), Relation.ReflTransGen UStep s s' →
      s.peer_connected = false → s'.peer_connected = false) := by
  refine ⟨?_, ?_, ?_, ?_⟩
  · intro α s
    simp [BInner.dropEndpoint, BInner.peer_connected]
  · intro α s
    constructor
    · simp [UInner.dropSenderExplicit, UInner.peer_connected]
    · intro r h
      simp only [UInner.dropHolder] at h
      split at h
      · exact Option.noConfusion h
      · simp only [Option.some.injEq] at h
        rw [← h]
        simp [UInner.peer_connected]
  · intro α s s' hsteps h
    induction hsteps with
    | refl => exact h
    | tail h1 h2 ih =>
      have := BStep_dropCount_mono h2
      simp only [BInner.peer_connected, beq_eq_false_iff_ne, ne_eq] at ih ⊢
      omega
  · intro α s s' hsteps h
    induction hsteps with
    | refl => exact h
    | tail h1 h2 ih =>
      have := UStep_dropCount_mono h2
      simp only [UInner.peer_connected, beq_eq_false_iff_ne, ne_eq] at ih ⊢
      omega

/-- Witness for C8: a disconnected bounded state stays disconnected along an
empty step sequence and after one further `try_send` step; the unbounded
holder drop at counter 0 also flips `peer_connected` off. -/
theorem C8_monotone_disconnect_witness :
    ((⟨0, 0, 0, 0, [none], 1⟩ : BInner Nat).peer_connected = false) ∧
    (((⟨0, 0, 0, 0, [none], 1⟩ : BInner Nat).try_send 7).1.peer_connected = false) ∧
    ∀ r, (UInner.new Nat).dropHolder = some r → (r.1).peer_connected = false :=
  ⟨C8_monotone_disconnect.2.2.1 Nat _ _ Relation.ReflTransGen.refl (by decide),
   C8_monotone_disconnect.2.2.1 Nat _ _
     (Relation.ReflTransGen.single (BStep.send _ 7)) (by decide),
   fun r h => (C8_monotone_disconnect.2.1 Nat (UInner.new Nat)).2 r h⟩

/-- C9: the occupancy invariant and wrap-around equivalence of the bounded
channel.  In every state reachable from a fresh channel of capacity
`2 ^ k` through the public API, the wrapping difference `tail - head`
(the occupancy) is at most the capacity, and every `try_send` / `try_recv`
step preserves this.  Because every cursor comparison and slot index uses
wrapping arithmetic, shifting all four cursors by any multiple of the
capacity — in particular by `USIZE`, i.e. wrapping around — produces a
state on which `try_send` and `try_recv` behave identically. -/
theorem C9_occupancy_and_wraparound :
    (∀ (α : Type) (k : Nat) (s : BInner α), k ≤ 63 →
      Relation.ReflTransGen BStep (BInner.new α (2 ^ k)) s →
      s.occupancy ≤ 2 ^ k) ∧
    (∀ (α : Type) (k : Nat) (s s' : BInner α) (v : α)
      (r : Except (TrySendError α) Unit) (w : List Wake), k ≤ 63 →
      Relation.ReflTransGen BStep (BInner.new α (2 ^ k)) s →
      s.try_send v = (s', r, w) → s'.occupancy ≤ 2 ^ k) ∧
    (∀ (α : Type) (k : Nat) (s s' : BInner α)
      (r : Except TryRecvError α) (w : List Wake), k ≤ 63 →
      Relation.ReflTransGen BStep (BInner.new α (2 ^ k)) s →
      s.try_recv = some (s', r, w) → s'.occupancy ≤ 2 ^ k) ∧
    (∀ (α : Type) (s : BInner α) (k δ : Nat) (v : α), k ≤ 63 →
      s.buffer.length = 2 ^ k → 2 ^ k ∣ δ →
      s.tail < USIZE → s.head_cache < USIZE → s.head < USIZE →
      (s.shiftCursors δ).try_send v =
        (((s.try_send v).1).shiftCursors δ,
          ((s.try_send v).2.1, (s.try_send v).2.2))) ∧
    (∀ (α : Type) (s : BInner α) (k δ : Nat), k ≤ 63 →
      s.buffer.length = 2 ^ k → 2 ^ k ∣ δ →
      s.tail < USIZE → s.head < USIZE → s.tail_cache < USIZE →
      (s.shiftCursors δ).try_recv =
        (s.try_recv).map (fun r => (r.1.shiftCursors δ, r.2.1, r.2.2))) := by
  refine ⟨?_, ?_, ?_, ?_, ?_⟩
  · intro α k s hk hreach
    obtain ⟨vs, hinv⟩ := BReach_BInv hk hreach
    have := BInv_occupancy hinv
    omega
  · intro α k s s' v r w hk hreach hsend
    have hreach' : Relation.ReflTransGen BStep (BInner.new α (2 ^ k)) s' := by
      refine hreach.tail ?_
      have := BStep.send s v
      rwa [hsend] at this
    obtain ⟨vs, hinv⟩ := BReach_BInv hk hreach'
    have := BInv_occupancy hinv
    omega
  · intro α k s s' r w hk hreach hrecv
    have hreach' : Relation.ReflTransGen BStep (BInner.new α (2 ^ k)) s' :=
      hreach.tail (BStep.recv hrecv)
    obtain ⟨vs, hinv⟩ := BReach_BInv hk hreach'
    have := BInv_occupancy hinv
    omega
  · intro α s k δ v hk hbuf hδ h1 h2 h3
    exact shift_trySend hk hbuf hδ h1 h2 h3 v
  · intro α s k δ hk hbuf hδ h1 h3 h4
    exact shift_tryRecv hk hbuf hδ h1 h3 h4

/-- Witness for C9: the fresh capacity-2 channel after one send, and the
wrap-shift of that state by `USIZE`. -/
theorem C9_occupancy_and_wraparound_witness :
    (((BInner.new Nat 2).try_send 3).1.occupancy ≤ 2 ^ 1) ∧
    ((((BInner.new Nat 2).try_send 3).1.shiftCursors USIZE).try_send 4 =
      (((((BInner.new Nat 2).try_send 3).1.try_send 4).1).shiftCursors USIZE,
        (((((BInner.new Nat 2).try_send 3).1.try_send 4).2.1),
          ((((BInner.new Nat 2).try_send 3).1.try_send 4).2.2)))) :=
  ⟨C9_occupancy_and_wraparound.2.1 Nat 1 (BInner.new Nat 2)
     ((BInner.new Nat 2).try_send 3).1 3 ((BInner.new Nat 2).try_send 3).2.1
     ((BInner.new Nat 2).try_send 3).2.2 (by decide)
     Relation.ReflTransGen.refl rfl,
   C9_occupancy_and_wraparound.2.2.2.1 Nat ((BInner.new Nat 2).try_send 3).1 1 USIZE 4
     (by decide) (by decide) (by decide) (by decide) (by decide) (by decide)⟩

end CQ
